import Mathlib

/-!
# The Zulip provider of the notification controller

A shallow embedding of `internal/notifier/zulip.go` (constructor `NewZulip`
and method `Zulip.Post`) together with the parts of the Go standard library
the provider calls (`strings`, `slices`, `fmt`, `net/url`), followed by the
properties of the provider: the split of the channel string, the text of
the message, the form-encoded payload, the stored endpoint and the single
call of the dispatch primitive.

The constructor of the commit-status dispatch provider, of which only the
tests are at hand, is modelled from the specification.

Go strings are finite byte sequences; a string literal of the source stands
for its UTF-8 bytes. A function that returns a value and an error returns a
pair of options.
-/

set_option maxRecDepth 8000

namespace Notifier

deriving instance DecidableEq for Except

/-- A Go `string`: an immutable sequence of bytes. -/
abbrev GoString := List UInt8

/-- The UTF-8 bytes of a string literal. -/
def str (s : String) : GoString := s.data.flatMap String.utf8EncodeChar

/-! ## Package `strings` -/

namespace strings

/-- `strings.HasPrefix(s, p)`. -/
def HasPrefix (s p : GoString) : Bool := p.isPrefixOf s

/-- `strings.HasSuffix(s, p)`. -/
def HasSuffix (s p : GoString) : Bool := p.reverse.isPrefixOf s.reverse

/-- `strings.Index(s, sep)`: the offset of the first occurrence of `sep` in
`s`, `none` for Go's `-1`. -/
def Index : GoString → GoString → Option Nat
  | [], sep => if sep.isEmpty then some 0 else none
  | c :: s, sep =>
    if sep.isPrefixOf (c :: s) then some 0 else (Index s sep).map (· + 1)

/-- `strings.LastIndex(s, sep)`: the offset of the last occurrence. -/
def LastIndex : GoString → GoString → Option Nat
  | [], sep => if sep.isEmpty then some 0 else none
  | c :: s, sep =>
    match LastIndex s sep with
    | some i => some (i + 1)
    | none => if sep.isPrefixOf (c :: s) then some 0 else none

/-- `strings.Contains(s, sub)`. -/
def Contains (s sub : GoString) : Bool := (Index s sub).isSome

/-- `strings.Cut(s, sep)`: the text before and after the first `sep`, and
whether `sep` was found. -/
def Cut (s sep : GoString) : GoString × GoString × Bool :=
  match Index s sep with
  | some i => (s.take i, s.drop (i + sep.length), true)
  | none => (s, [], false)

/-- The loop of `strings.Count` for a non-empty separator: the number of
non-overlapping occurrences, searched left to right. The first argument
bounds the number of iterations. -/
def countLoop (sep : GoString) : Nat → GoString → Nat
  | 0, _ => 0
  | fuel + 1, s =>
    match Index s sep with
    | none => 0
    | some i => countLoop sep fuel (s.drop (i + sep.length)) + 1

/-- `strings.Count(s, sep)` for a non-empty `sep`. -/
def Count (s sep : GoString) : Nat := countLoop sep (s.length + 1) s

/-- The loop of `genSplit`: at most `k` further cuts at `sep`, the
remainder being the last element. -/
def splitLoop (sep : GoString) : Nat → GoString → List GoString
  | 0, s => [s]
  | k + 1, s =>
    match Index s sep with
    | none => [s]
    | some m => s.take m :: splitLoop sep k (s.drop (m + sep.length))

/-- `strings.SplitN(s, sep, n)` for a non-empty separator (`genSplit` with
`sepSave = 0`; the `explode` branch taken for an empty separator is
excluded by the argument `_hsep`). -/
def SplitN (s sep : GoString) (n : Int) (_hsep : sep ≠ []) : List GoString :=
  if n = 0 then []
  else
    let n : Nat := if n < 0 then Count s sep + 1 else n.toNat
    let n : Nat := if n > s.length + 1 then s.length + 1 else n
    splitLoop sep (n - 1) s

/-- `strings.Join(elems, sep)`. -/
def Join (elems : List GoString) (sep : GoString) : GoString :=
  sep.intercalate elems

/-- Lower-casing of one ASCII byte. -/
def lowerASCII (c : UInt8) : UInt8 :=
  if 65 ≤ c.toNat ∧ c.toNat ≤ 90 then UInt8.ofNat (c.toNat + 32) else c

/-- `strings.ToLower(s)`. A string of ASCII bytes takes the fast path of the
library, which rewrites `A`..`Z` byte by byte; any other string is mapped
with `strings.Map(unicode.ToLower, s)`, whose case tables are not part of
this development and are the parameter `mapLower`. -/
def ToLower (mapLower : GoString → GoString) (s : GoString) : GoString :=
  if s.all (fun c => c.toNat < 128) then s.map lowerASCII else mapLower s

end strings

/-! ## Package `net/url` -/

namespace url

/-- Membership of a byte in the set of ASCII characters spelled by `set`. -/
def oneOf (c : UInt8) (set : String) : Bool := (str set).contains c

/-- Whether `lo <= c && c <= hi` for ASCII characters `lo`, `hi`. -/
def between (lo hi : Char) (c : UInt8) : Bool :=
  decide (lo.toNat ≤ c.toNat) && decide (c.toNat ≤ hi.toNat)

/-- The ASCII letters and digits. -/
def isAlnum (c : UInt8) : Bool :=
  between 'a' 'z' c || between 'A' 'Z' c || between '0' '9' c

/-- The escaping modes of the package (type `encoding`). -/
inductive encoding
  | encodePath
  | encodePathSegment
  | encodeHost
  | encodeZone
  | encodeUserPassword
  | encodeQueryComponent
  | encodeFragment
  deriving DecidableEq, Repr

open encoding

/-- `ishex(c)`. -/
def ishex (c : UInt8) : Bool :=
  between '0' '9' c || between 'a' 'f' c || between 'A' 'F' c

/-- `unhex(c)`. -/
def unhex (c : UInt8) : UInt8 :=
  if between '0' '9' c then UInt8.ofNat (c.toNat - 48)
  else if between 'a' 'f' c then UInt8.ofNat (c.toNat - 97 + 10)
  else if between 'A' 'F' c then UInt8.ofNat (c.toNat - 65 + 10)
  else 0

/-- The byte `unhex(a)<<4 | unhex(b)`. -/
def unhex2 (a b : UInt8) : UInt8 :=
  UInt8.ofNat ((unhex a).toNat * 16 % 256 ||| (unhex b).toNat)

/-- The table `upperhex = "0123456789ABCDEF"` at index `n`. -/
def upperhex (n : Nat) : UInt8 := (str "0123456789ABCDEF").getD n 0

/-- `shouldEscape(c, mode)`: whether the byte must be percent-encoded when it
appears in the given part of a URL. -/
def shouldEscape (c : UInt8) (mode : encoding) : Bool :=
  if isAlnum c then false
  else if (mode = encodeHost ∨ mode = encodeZone) ∧ oneOf c "!$&\x27()*+,;=:[]<>\"" then false
  else if oneOf c "-_.~" then false
  else if oneOf c "$&+,/:;=?@" then
    match mode with
    | encodePath => c == 63
    | encodePathSegment => oneOf c "/;,?"
    | encodeUserPassword => oneOf c "@/?:"
    | encodeQueryComponent => true
    | encodeFragment => false
    | _ => true
  else if mode = encodeFragment ∧ oneOf c "!()*" then false
  else true

/-- `escape(s, mode)`: a space becomes `+` in a query component, every other
byte that `shouldEscape` names becomes `%XX` in upper-case hexadecimal,
the rest is copied. -/
def escape (s : GoString) (mode : encoding) : GoString :=
  s.flatMap fun c =>
    if c = 32 ∧ mode = encodeQueryComponent then [43]
    else if shouldEscape c mode then [37, upperhex (c.toNat / 16), upperhex (c.toNat % 16)]
    else [c]

/-- `QueryEscape(s)`. -/
def QueryEscape (s : GoString) : GoString := escape s encodeQueryComponent

/-- The reasons for which parsing or unescaping fails. -/
inductive Cause
  /-- `EscapeError(s)`: invalid URL escape `s`. -/
  | EscapeError (s : GoString)
  /-- `InvalidHostError(s)`: invalid character `s` in host name. -/
  | InvalidHostError (s : GoString)
  /-- The error "net/url: invalid control character in URL". -/
  | invalidControlCharacter
  /-- The error "missing protocol scheme". -/
  | missingProtocolScheme
  /-- The error "first path segment in URL cannot contain colon". -/
  | firstPathSegmentColon
  /-- The error "missing `]` in host". -/
  | missingBracket
  /-- The error "invalid port ... after host". -/
  | invalidPort (colonPort : GoString)
  /-- The error "net/url: invalid userinfo". -/
  | invalidUserinfo
  /-- The error "invalid semicolon separator in query". -/
  | invalidSemicolon
  /-- The error "empty url". -/
  | emptyURL
  /-- The error "invalid URI for request". -/
  | invalidURIForRequest
  deriving DecidableEq, Repr

/-- `unescape(s, mode)`. The library validates the escapes in a first pass
and builds the result in a second; here one left-to-right pass does both
and fails at the same place with the same error. -/
def unescape : GoString → encoding → Except Cause GoString
  | [], _ => .ok []
  | c :: rest, mode =>
    if c = 37 then
      match rest with
      | a :: b :: rest2 =>
        if !ishex a || !ishex b then .error (.EscapeError [c, a, b])
        else if mode = encodeHost ∧ (unhex a).toNat < 8 ∧ [c, a, b] ≠ str "%25" then
          .error (.EscapeError [c, a, b])
        else if mode = encodeZone ∧ [c, a, b] ≠ str "%25" ∧ unhex2 a b ≠ 32
            ∧ shouldEscape (unhex2 a b) encodeHost then
          .error (.EscapeError [c, a, b])
        else
          match unescape rest2 mode with
          | .ok t => .ok (unhex2 a b :: t)
          | .error e => .error e
      | _ => .error (.EscapeError (c :: rest))
    else if (mode = encodeHost ∨ mode = encodeZone) ∧ c.toNat < 128
        ∧ shouldEscape c encodeHost then
      .error (.InvalidHostError [c])
    else
      match unescape rest mode with
      | .ok t => .ok ((if c = 43 ∧ mode = encodeQueryComponent then 32 else c) :: t)
      | .error e => .error e

/-- `QueryUnescape(s)`. -/
def QueryUnescape (s : GoString) : Except Cause GoString :=
  unescape s encodeQueryComponent

/-- The type `Userinfo`: a user name and an optional password. -/
structure Userinfo where
  username : GoString
  password : GoString
  passwordSet : Bool
  deriving DecidableEq, Repr

/-- The type `URL`; a field left out has Go's zero value. -/
structure URL where
  Scheme : GoString := []
  Opaque : GoString := []
  User : Option Userinfo := none
  Host : GoString := []
  Path : GoString := []
  RawPath : GoString := []
  OmitHost : Bool := false
  ForceQuery : Bool := false
  RawQuery : GoString := []
  Fragment : GoString := []
  RawFragment : GoString := []
  deriving DecidableEq, Repr

/-- The type `Error` of the package: operation, URL and cause. -/
structure Error where
  Op : GoString
  URL : GoString
  Err : Cause
  deriving DecidableEq, Repr

/-- `stringContainsCTLByte(s)`. -/
def stringContainsCTLByte (s : GoString) : Bool :=
  s.any fun b => decide (b.toNat < 32) || b == 127

/-- The loop of `getScheme` at index `i`, `rest` being `rawURL[i:]`. -/
def getSchemeLoop (rawURL : GoString) : Nat → GoString → Except Cause (GoString × GoString)
  | _, [] => .ok ([], rawURL)
  | i, c :: rest =>
    if between 'a' 'z' c || between 'A' 'Z' c then getSchemeLoop rawURL (i + 1) rest
    else if between '0' '9' c || oneOf c "+-." then
      if i = 0 then .ok ([], rawURL) else getSchemeLoop rawURL (i + 1) rest
    else if c = 58 then
      if i = 0 then .error .missingProtocolScheme
      else .ok (rawURL.take i, rawURL.drop (i + 1))
    else .ok ([], rawURL)

/-- `getScheme(rawURL)`: the scheme before the first `:` and the rest. -/
def getScheme (rawURL : GoString) : Except Cause (GoString × GoString) :=
  getSchemeLoop rawURL 0 rawURL

/-- `validOptionalPort(port)`. -/
def validOptionalPort : GoString → Bool
  | [] => true
  | c :: digits => c == 58 && digits.all (between '0' '9')

/-- `validUserinfo(s)`; a byte outside ASCII starts a rune that the library
rejects. -/
def validUserinfo (s : GoString) : Bool :=
  s.all fun r => isAlnum r || oneOf r "-._:~!$&\x27()*+,;=%@"

/-- `parseHost(host)`; an IP literal in brackets is checked as RFC 3986 and
RFC 6874 text, not as an address. -/
def parseHost (host : GoString) : Except Cause GoString :=
  if strings.HasPrefix host (str "[") then
    match strings.LastIndex host (str "]") with
    | none => .error .missingBracket
    | some i =>
      let colonPort := host.drop (i + 1)
      if !validOptionalPort colonPort then .error (.invalidPort colonPort)
      else
        match strings.Index (host.take i) (str "%25") with
        | some zone =>
          match unescape (host.take zone) encodeHost with
          | .error e => .error e
          | .ok host1 =>
            match unescape ((host.take i).drop zone) encodeZone with
            | .error e => .error e
            | .ok host2 =>
              match unescape (host.drop i) encodeHost with
              | .error e => .error e
              | .ok host3 => .ok (host1 ++ host2 ++ host3)
        | none => unescape host encodeHost
  else
    match strings.LastIndex host (str ":") with
    | some i =>
      let colonPort := host.drop i
      if !validOptionalPort colonPort then .error (.invalidPort colonPort)
      else unescape host encodeHost
    | none => unescape host encodeHost

/-- `parseAuthority(authority)`: the user information before the last `@`
and the host after it. -/
def parseAuthority (authority : GoString) : Except Cause (Option Userinfo × GoString) :=
  match strings.LastIndex authority (str "@") with
  | none =>
    match parseHost authority with
    | .error e => .error e
    | .ok host => .ok (none, host)
  | some i =>
    match parseHost (authority.drop (i + 1)) with
    | .error e => .error e
    | .ok host =>
      let userinfo := authority.take i
      if !validUserinfo userinfo then .error .invalidUserinfo
      else if !strings.Contains userinfo (str ":") then
        match unescape userinfo encodeUserPassword with
        | .error e => .error e
        | .ok username => .ok (some ⟨username, [], false⟩, host)
      else
        let (username, password, _) := strings.Cut userinfo (str ":")
        match unescape username encodeUserPassword with
        | .error e => .error e
        | .ok username =>
          match unescape password encodeUserPassword with
          | .error e => .error e
          | .ok password => .ok (some ⟨username, password, true⟩, host)

/-- `(*URL).setPath(p)`: `Path` is the unescaped `p`; `RawPath` keeps `p`
only when it is not the default escaping of `Path`. -/
def URL.setPath (u : URL) (p : GoString) : Except Cause URL :=
  match unescape p encodePath with
  | .error e => .error e
  | .ok path =>
    if p = escape path encodePath then .ok { u with Path := path, RawPath := [] }
    else .ok { u with Path := path, RawPath := p }

/-- `(*URL).setFragment(f)`. -/
def URL.setFragment (u : URL) (f : GoString) : Except Cause URL :=
  match unescape f encodeFragment with
  | .error e => .error e
  | .ok frag =>
    if f = escape frag encodeFragment then .ok { u with Fragment := frag, RawFragment := [] }
    else .ok { u with Fragment := frag, RawFragment := f }

/-- The second half of `parse`: authority and path of `rest`, the scheme
and the query being already in `url`. -/
def parseAuthorityPath (url : URL) (rest : GoString) (viaRequest : Bool) : Except Cause URL :=
  if (url.Scheme ≠ [] ∨ (!viaRequest ∧ !strings.HasPrefix rest (str "///")))
      ∧ strings.HasPrefix rest (str "//") then
    let authority := rest.drop 2
    let (authority, rest) :=
      match strings.Index authority (str "/") with
      | some i => (authority.take i, authority.drop i)
      | none => (authority, [])
    match parseAuthority authority with
    | .error e => .error e
    | .ok (user, host) => URL.setPath { url with User := user, Host := host } rest
  else if url.Scheme ≠ [] ∧ strings.HasPrefix rest (str "/") then
    URL.setPath { url with OmitHost := true } rest
  else URL.setPath url rest

/-- `parse(rawURL, viaRequest)`, for a text without fragment. A scheme
consists of ASCII bytes, so that `strings.ToLower` rewrites it byte by
byte. -/
def parse (rawURL : GoString) (viaRequest : Bool) : Except Cause URL :=
  if stringContainsCTLByte rawURL then .error .invalidControlCharacter
  else if rawURL = [] ∧ viaRequest then .error .emptyURL
  else if rawURL = str "*" then .ok { Path := str "*" }
  else
    match getScheme rawURL with
    | .error e => .error e
    | .ok (scheme, rest) =>
      let scheme := scheme.map strings.lowerASCII
      let (forceQuery, rest, rawQuery) :=
        if strings.HasSuffix rest (str "?") ∧ strings.Count rest (str "?") = 1 then
          (true, rest.take (rest.length - 1), ([] : GoString))
        else (false, (strings.Cut rest (str "?")).1, (strings.Cut rest (str "?")).2.1)
      let url : URL := { Scheme := scheme, ForceQuery := forceQuery, RawQuery := rawQuery }
      if !strings.HasPrefix rest (str "/") then
        if scheme ≠ [] then .ok { url with Opaque := rest }
        else if viaRequest then .error .invalidURIForRequest
        else if strings.Contains (strings.Cut rest (str "/")).1 (str ":") then
          .error .firstPathSegmentColon
        else parseAuthorityPath url rest viaRequest
      else parseAuthorityPath url rest viaRequest

/-- `url.Parse(rawURL)`. -/
def Parse (rawURL : GoString) : Except Error URL :=
  let u := (strings.Cut rawURL (str "#")).1
  let frag := (strings.Cut rawURL (str "#")).2.1
  match parse u false with
  | .error e => .error ⟨str "parse", u, e⟩
  | .ok url =>
    if frag = [] then .ok url
    else
      match url.setFragment frag with
      | .error e => .error ⟨str "parse", rawURL, e⟩
      | .ok url => .ok url

/-- `validEncoded(s, mode)`. -/
def validEncoded (s : GoString) (mode : encoding) : Bool :=
  s.all fun c => oneOf c "!$&\x27()*+,;=:@[]%" || !shouldEscape c mode

/-- `(*URL).EscapedPath()`. -/
def URL.EscapedPath (u : URL) : GoString :=
  if u.RawPath ≠ [] ∧ validEncoded u.RawPath encodePath
      ∧ unescape u.RawPath encodePath = .ok u.Path then u.RawPath
  else if u.Path = str "*" then str "*"
  else escape u.Path encodePath

/-- `(*URL).EscapedFragment()`. -/
def URL.EscapedFragment (u : URL) : GoString :=
  if u.RawFragment ≠ [] ∧ validEncoded u.RawFragment encodeFragment
      ∧ unescape u.RawFragment encodeFragment = .ok u.Fragment then u.RawFragment
  else escape u.Fragment encodeFragment

/-- `(*Userinfo).String()` for a non-nil receiver. -/
def Userinfo.String (u : Userinfo) : GoString :=
  if u.passwordSet then
    escape u.username encodeUserPassword ++ str ":" ++ escape u.password encodeUserPassword
  else escape u.username encodeUserPassword

/-- `(*URL).String()`: the URL reassembled from its fields. -/
def URL.String (u : URL) : GoString :=
  let buf : GoString := if u.Scheme ≠ [] then u.Scheme ++ str ":" else []
  let buf : GoString :=
    if u.Opaque ≠ [] then buf ++ u.Opaque
    else
      let buf : GoString :=
        if u.Scheme ≠ [] ∨ u.Host ≠ [] ∨ u.User.isSome then
          if u.OmitHost ∧ u.Host = [] ∧ u.User.isNone then buf
          else
            let buf : GoString :=
              if u.Host ≠ [] ∨ u.Path ≠ [] ∨ u.User.isSome then buf ++ str "//" else buf
            let buf : GoString :=
              match u.User with
              | some ui => buf ++ ui.String ++ str "@"
              | none => buf
            if u.Host ≠ [] then buf ++ escape u.Host encodeHost else buf
        else buf
      let path := u.EscapedPath
      let buf : GoString :=
        if path ≠ [] ∧ path.head? ≠ some 47 ∧ u.Host ≠ [] then buf ++ str "/" else buf
      let buf : GoString :=
        if buf = [] ∧ strings.Contains (strings.Cut path (str "/")).1 (str ":") then
          buf ++ str "./"
        else buf
      buf ++ path
  let buf : GoString :=
    if u.ForceQuery ∨ u.RawQuery ≠ [] then buf ++ str "?" ++ u.RawQuery else buf
  if u.Fragment ≠ [] then buf ++ str "#" ++ u.EscapedFragment else buf

end url

/-! ## Go maps, `slices.Sort`, `fmt.Sprintf`, `url.Values` -/

/-- A Go `map[string]V`: entries with pairwise distinct keys. The order of
the list is the order in which a `range` loop happens to visit the entries,
which Go leaves unspecified; the nil map and the empty map are the empty
list. -/
structure GoMap (V : Type) where
  entries : List (GoString × V)
  nodup : (entries.map Prod.fst).Nodup

namespace GoMap

/-- The keys in the order a `range` loop yields them. -/
def keys {V : Type} (m : GoMap V) : List GoString := m.entries.map Prod.fst

/-- The index expression `m[k]`: the value stored under `k`, the zero value
when the key is absent. -/
def get {V : Type} (m : GoMap V) (k : GoString) (zero : V) : V :=
  (m.entries.lookup k).getD zero

end GoMap

/-- The comparison `a < b` of two Go strings: lexicographic on bytes. -/
def stringLess : GoString → GoString → Bool
  | _, [] => false
  | [], _ :: _ => true
  | a :: s, b :: t => decide (a.toNat < b.toNat) || (a == b && stringLess s t)

/-- The order `a <= b` of Go strings, that is `!(b < a)`. -/
def stringLE (a b : GoString) : Prop := stringLess b a = false

instance : DecidableRel stringLE := fun a b => decEq (stringLess b a) false

namespace slices

/-- The function `slices.Sort` on strings: `x` in ascending order. Equal strings are
indistinguishable, so the result does not depend on the sorting algorithm;
the embedding inserts one element after the other. -/
def sort (x : List GoString) : List GoString := x.insertionSort stringLE

end slices

namespace fmt

/-- The operand a verb `%s` prints at position `argNum`; a missing operand
prints as `%!s(MISSING)`. -/
def operand (a : List GoString) (argNum : Nat) : GoString :=
  match a.get? argNum with
  | some x => x
  | none => str "%!s(MISSING)"

/-- The main loop of `fmt.Sprintf` for string operands and the verbs `%s`,
`%[n]s` with a one-digit index `n`, and `%%`; these are the verbs the
provider uses. `argNum` is the position of the next operand. -/
def doPrintf : GoString → List GoString → Nat → GoString
  | [], _, _ => []
  | 37 :: 115 :: rest, a, argNum => operand a argNum ++ doPrintf rest a (argNum + 1)
  | 37 :: 37 :: rest, a, argNum => 37 :: doPrintf rest a argNum
  | 37 :: 91 :: d :: 93 :: 115 :: rest, a, argNum =>
    if url.between '1' '9' d ∧ d.toNat - 48 ≤ a.length then
      operand a (d.toNat - 49) ++ doPrintf rest a (d.toNat - 48)
    else str "%!s(BADINDEX)" ++ doPrintf rest a argNum
  | c :: rest, a, argNum => c :: doPrintf rest a argNum

/-- `fmt.Sprintf(format, a...)` where every operand is used by the format,
as in every call of the provider. -/
def Sprintf (format : GoString) (a : List GoString) : GoString := doPrintf format a 0

end fmt

namespace url

/-- The type `Values`, a `map[string][]string`. -/
abbrev Values := GoMap (List GoString)

/-- `Values.Encode()`: the pairs `key=value` in the order of the sorted
keys, both sides query-escaped, joined by `&`. Every pair but the first is
preceded by `&`, so the text is the join of the pairs. -/
def Values.Encode (v : Values) : GoString :=
  strings.Join
    ((slices.sort v.keys).flatMap fun k =>
      (v.get k []).map fun x => QueryEscape k ++ str "=" ++ QueryEscape x)
    (str "&")

end url

/-! ## The event (package `github.com/fluxcd/pkg/apis/event/v1beta1`) -/

/-- The reference to the object an event is about (`corev1.ObjectReference`). -/
structure ObjectReference where
  Kind : GoString := []
  Namespace : GoString := []
  Name : GoString := []
  UID : GoString := []
  APIVersion : GoString := []
  ResourceVersion : GoString := []
  FieldPath : GoString := []

/-- The type `eventv1.Event`. The time stamp is kept as a number of seconds;
the provider does not read it. -/
structure Event where
  InvolvedObject : ObjectReference := {}
  Severity : GoString := []
  Timestamp : Int := 0
  Message : GoString := []
  Reason : GoString := []
  Metadata : GoMap GoString := ⟨[], List.nodup_nil⟩
  ReportingController : GoString := []
  ReportingInstance : GoString := []

/-- The constant `eventv1.EventSeverityError`. -/
def EventSeverityError : GoString := str "error"

/-! ## `internal/notifier/zulip.go` -/

/-- The type `Zulip`. `TLS` is the type `tls.Config`; the field `tlsConfig`
is a pointer that may be nil. -/
structure Zulip (TLS : Type) where
  endpoint : GoString
  channel : GoString
  topic : GoString
  proxyURL : GoString
  tlsConfig : Option TLS
  username : GoString
  password : GoString

/-- The `error` values `NewZulip` returns. -/
inductive error
  /-- The result of `fmt.Errorf` for a format without `%w`: an error whose
  text is `msg`. -/
  | Errorf (msg : GoString)
  /-- The result of `fmt.Errorf(format, err)` for the format
  `"invalid Zulip endpoint URL: %w"`: an error that wraps the error `err` of
  `url.Parse`. -/
  | invalidEndpoint (err : url.Error)

/-- The function `NewZulip`. The result is the pair Go returns: the pointer
to the provider or nil, and the error or nil. -/
def NewZulip {TLS : Type} (endpoint channel proxyURL : GoString) (tlsConfig : Option TLS)
    (username password : GoString) : Option (Zulip TLS) × Option error :=
  match url.Parse endpoint with
  | .error err => (none, some (.invalidEndpoint err))
  | .ok u =>
    let u : url.URL := { u with Path := str "/api/v1/messages" }
    let endpoint := u.String
    let s := strings.SplitN channel (str "/") 2 (by decide)
    if s.length ≠ 2 ∨ s.getD 0 [] = [] ∨ s.getD 1 [] = [] then
      (none, some (.Errorf (fmt.Sprintf
        (str "invalid Zulip channel format, expected <channel>/<topic>, got \x27%s\x27")
        [channel])))
    else
      let channel := s.getD 0 []
      let topic := s.getD 1 []
      (some {
        endpoint := endpoint
        channel := channel
        topic := topic
        proxyURL := proxyURL
        tlsConfig := tlsConfig
        username := username
        password := password }, none)

/-- The bullets of the metadata section (lines 81 to 89 of `Zulip.Post`):
the keys are collected by a `range` loop, sorted, and each is printed with
its value. -/
def Zulip.metadataLines (metadata : GoMap GoString) : List GoString :=
  let mdKeys := metadata.keys
  let mdKeys := slices.sort mdKeys
  mdKeys.map fun k => fmt.Sprintf (str "- **%s**: `%s`") [k, metadata.get k []]

/-- The text of the message (lines 69 to 96 of `Zulip.Post`). `mapLower` is
the Unicode branch of `strings.ToLower`. -/
def Zulip.content (mapLower : GoString → GoString) (event : Event) : GoString :=
  let obj := fmt.Sprintf (str "%s/%s.%s")
    [strings.ToLower mapLower event.InvolvedObject.Kind,
     event.InvolvedObject.Name,
     event.InvolvedObject.Namespace]
  let header :=
    if event.Severity = EventSeverityError then fmt.Sprintf (str "⚠️ Error: `%s`") [obj]
    else fmt.Sprintf (str "ℹ️ Info: `%s`") [obj]
  let msg := fmt.Sprintf (str "`%s`") [event.Message]
  let md := Zulip.metadataLines event.Metadata
  fmt.Sprintf (str "%[1]s\n\n%[2]s\n\nMetadata:\n%[3]s") [header, msg, strings.Join md (str "\n")]

/-- The request body (lines 98 to 103 of `Zulip.Post`). -/
def Zulip.payload {TLS : Type} (z : Zulip TLS) (content : GoString) : GoString :=
  url.Values.Encode
    ⟨[(str "type", [str "stream"]),
      (str "to", [z.channel]),
      (str "topic", [z.topic]),
      (str "content", [content])],
      by show List.Nodup [str "type", str "to", str "topic", str "content"]; decide⟩

/-- What `Zulip.Post` uses of the rest of the package `notifier`: the
dispatch primitive `postMessage` and the four transport options. They are
parameters of the embedding. `postMessage` acts on the outside world, a
state of type `World`, and returns an error of type `Err` or nil. -/
structure Dispatch (Ctx TLS Opt Err World : Type) where
  withProxy : GoString → Opt
  withTLSConfig : Option TLS → Opt
  withBasicAuth : GoString → GoString → Opt
  withContentType : GoString → Opt
  postMessage : Ctx → GoString → GoString → List Opt → World → Option Err × World

/-- The method `Zulip.Post`. -/
def Zulip.Post {Ctx TLS Opt Err World : Type} (d : Dispatch Ctx TLS Opt Err World)
    (mapLower : GoString → GoString) (z : Zulip TLS) (ctx : Ctx) (event : Event) :
    World → Option Err × World :=
  let contentType := str "application/x-www-form-urlencoded"
  let content := Zulip.content mapLower event
  let payload := z.payload content
  d.postMessage ctx z.endpoint payload
    [d.withProxy z.proxyURL,
     d.withTLSConfig z.tlsConfig,
     d.withBasicAuth z.username z.password,
     d.withContentType contentType]

/-! ## Notions used to state the properties -/

/-- The text before the first `/` of `c` (all of `c` when it has none). -/
def beforeSlash (c : GoString) : GoString := c.takeWhile (fun b => b != 47)

/-- The text after the first `/` of `c` (empty when it has none). -/
def afterSlash (c : GoString) : GoString := (c.dropWhile (fun b => b != 47)).drop 1

/-- The bullet of one metadata entry: the text "- **key**: `value`". -/
def bullet (key value : GoString) : GoString :=
  str "- **" ++ key ++ str "**: `" ++ value ++ str "`"

/-- A transport option as a call of one of the four option constructors. -/
inductive TransportOption (TLS : Type)
  | withProxy (proxyURL : GoString)
  | withTLSConfig (tlsConfig : Option TLS)
  | withBasicAuth (username password : GoString)
  | withContentType (contentType : GoString)

/-- One call of the dispatch primitive: its arguments. -/
structure Call (Ctx TLS : Type) where
  ctx : Ctx
  address : GoString
  payload : GoString
  options : List (TransportOption TLS)

/-- A dispatch primitive that keeps a log: the world is the list of the
calls made so far, every call is appended to it, and `respond` decides
which error, if any, the call returns. -/
def recorder {Ctx TLS Err : Type} (respond : Call Ctx TLS → Option Err) :
    Dispatch Ctx TLS (TransportOption TLS) Err (List (Call Ctx TLS)) where
  withProxy := .withProxy
  withTLSConfig := .withTLSConfig
  withBasicAuth := .withBasicAuth
  withContentType := .withContentType
  postMessage := fun ctx address payload options log =>
    (respond ⟨ctx, address, payload, options⟩, log ++ [⟨ctx, address, payload, options⟩])

/-! ## Decoding a form-encoded text (`url.ParseQuery`) -/

namespace GoMap

/-- The entries after the assignment `m[k] = v`: the value under `k` is
replaced, or the entry is added when the key is new. -/
def setEntries {V : Type} (k : GoString) (v : V) : List (GoString × V) → List (GoString × V)
  | [] => [(k, v)]
  | e :: l => if e.1 = k then (k, v) :: l else e :: setEntries k v l

/-- The assignment `m[k] = v`. -/
def set {V : Type} (m : GoMap V) (k : GoString) (v : V) : GoMap V where
  entries := setEntries k v m.entries
  nodup := by
    have key : ∀ l : List (GoString × V), (l.map Prod.fst).Nodup →
        ((setEntries k v l).map Prod.fst).Nodup
          ∧ ∀ x, x ∈ (setEntries k v l).map Prod.fst → x = k ∨ x ∈ l.map Prod.fst := by
      intro l
      induction l with
      | nil => intro _; simp [setEntries]
      | cons e l ih =>
        intro h
        rw [List.map_cons, List.nodup_cons] at h
        by_cases he : e.1 = k
        · simp only [setEntries, he, if_true, List.map_cons, List.nodup_cons]
          refine ⟨⟨he ▸ h.1, h.2⟩, ?_⟩
          intro x hx
          rcases List.mem_cons.1 hx with hx | hx
          · exact Or.inl hx
          · exact Or.inr (List.mem_cons_of_mem _ hx)
        · simp only [setEntries, he, if_false, List.map_cons, List.nodup_cons]
          refine ⟨⟨?_, (ih h.2).1⟩, ?_⟩
          · intro hx
            rcases (ih h.2).2 _ hx with hx | hx
            · exact he hx
            · exact h.1 hx
          · intro x hx
            rcases List.mem_cons.1 hx with hx | hx
            · exact Or.inr (hx ▸ List.mem_cons_self _ _)
            · rcases (ih h.2).2 _ hx with hx | hx
              · exact Or.inl hx
              · exact Or.inr (List.mem_cons_of_mem _ hx)
    exact (key m.entries m.nodup).1

end GoMap

namespace url

/-- The loop of `parseQuery`: `query` is cut at each `&`, a piece with a
semicolon or a bad escape is skipped and the first such error kept, an
empty piece is skipped, and any other piece `key=value` is unescaped and
appended to the values of its key. The first argument bounds the number of
iterations. -/
def parseQueryLoop : Nat → Values → Option Cause → GoString → Values × Option Cause
  | 0, m, err, _ => (m, err)
  | fuel + 1, m, err, query =>
    if query = [] then (m, err)
    else
      let key := (strings.Cut query (str "&")).1
      let query := (strings.Cut query (str "&")).2.1
      if strings.Contains key (str ";") then
        parseQueryLoop fuel m (some .invalidSemicolon) query
      else if key = [] then parseQueryLoop fuel m err query
      else
        let value := (strings.Cut key (str "=")).2.1
        let key := (strings.Cut key (str "=")).1
        match QueryUnescape key with
        | .error err1 => parseQueryLoop fuel m (if err = none then some err1 else err) query
        | .ok key =>
          match QueryUnescape value with
          | .error err1 => parseQueryLoop fuel m (if err = none then some err1 else err) query
          | .ok value => parseQueryLoop fuel (m.set key (m.get key [] ++ [value])) err query

/-- `url.ParseQuery(query)`: the decoding of a form-encoded text. Each
iteration of the loop shortens the query, so the bound is never reached. -/
def ParseQuery (query : GoString) : Values × Option Cause :=
  parseQueryLoop (query.length + 1) ⟨[], List.nodup_nil⟩ none query

end url

/-! ## Further notions used to state the properties -/

/-- The escaped form of one byte of a query component. -/
def escapeByte (c : UInt8) : GoString :=
  if c = 32 then [43]
  else if url.shouldEscape c .encodeQueryComponent then
    [37, url.upperhex (c.toNat / 16), url.upperhex (c.toNat % 16)]
  else [c]

/-- A URL scheme in lower case: a non-empty text of the letters `a` to `z`. -/
def isLowerScheme (scheme : GoString) : Bool :=
  !scheme.isEmpty && scheme.all (url.between 'a' 'z')

/-- A plain host name: a non-empty text of ASCII letters, digits, dots and
hyphens. -/
def isHostName (host : GoString) : Bool :=
  !host.isEmpty && host.all fun c => url.isAlnum c || c == 46 || c == 45

/-- An optional port: nothing, or a colon and decimal digits. -/
def isOptionalPort : GoString → Bool
  | [] => true
  | c :: digits => c == 58 && digits.all (url.between '0' '9')

/-! ## The commit-status dispatch provider (from the specification) -/

/-- Modelled from the spec: the credential a commit-status provider is built
with (section 4.3), a static token or the three application fields; the
source of the provider is missing. -/
inductive GitHubAuth
  /-- The static token. -/
  | staticToken (token : GoString)
  /-- Authentication as an installed application. -/
  | app (appID installationID privateKey : List UInt8)
  deriving DecidableEq

/-- Modelled from the spec: the provider `GitHubDispatch`, whose source is
missing, as far as `github_dispatch_test.go` reads it (`Owner`, `Repo` and
the host of `Client.BaseURL`), with the credential and the enterprise flag
of the repository identity of section 3. -/
structure GitHubDispatch where
  Owner : GoString
  Repo : GoString
  BaseURLHost : GoString
  isEnterprise : Bool
  auth : GitHubAuth
  deriving DecidableEq

/-- Modelled from the spec: the errors of the construction of a
commit-status provider, whose source is missing. -/
inductive DispatchError
  /-- The result of `errors.New(text)`. -/
  | New (text : GoString)
  /-- The repository URL is not of the form `https://host/owner/repo`. -/
  | invalidRepositoryURL (addr : GoString)
  deriving DecidableEq

/-- Modelled from the spec: a field of the secret data is present when the
map holds a value under its key (the source that reads the map is
missing). -/
def present (secretData : GoMap (List UInt8)) (key : String) : Bool :=
  (secretData.entries.lookup (str key)).isSome

/-- Modelled from the spec: the value the secret data holds under `key`,
empty when absent (the source that reads the map is missing). -/
def field (secretData : GoMap (List UInt8)) (key : String) : List UInt8 :=
  secretData.get (str key) []

/-- Modelled from the spec: the parsing of the repository URL inside
`NewGitHubDispatch`, whose source is missing (only
`github_dispatch_test.go` is present). Section 4.3: the URL is accepted
when it is exactly `https://host/owner/repo`, host, owner and repo being
non-empty texts between the slashes, and any further path segment is an
error; the result is the host followed by the two path segments. -/
def parseRepositoryURL (addr : GoString) : Option (GoString × GoString × GoString) :=
  if strings.HasPrefix addr (str "https://") then
    match (addr.drop (str "https://").length).splitOn 47 with
    | [host, owner, repo] =>
      if host ≠ [] ∧ owner ≠ [] ∧ repo ≠ [] then some (host, owner, repo) else none
    | _ => none
  else none

/-- Modelled from the spec: the constructor `NewGitHubDispatch`, whose
source is missing (only `github_dispatch_test.go` is present). The checks
are those of section 4.3 in their order, the first failing one deciding:
no static token and no application details; application ID without
installation ID; application ID without private key; then the repository
URL. "Application details present" is read as "the application ID is
present", which the table of `TestNewGithubDispatchProvider` fixes: an
installation ID and a private key without application ID give the first
message. A complete set of application fields takes priority over a static
token; the host `github.com` selects the API host `api.github.com`, any
other host is an enterprise host and is the API host itself. The keys of
the secret data are those of the test. -/
def NewGitHubDispatch {TLS Cache : Type} (addr token : GoString) (_tlsConfig : Option TLS)
    (_proxyURL _providerName _providerNamespace : GoString) (secretData : GoMap (List UInt8))
    (_tokenCache : Option Cache) : Option GitHubDispatch × Option DispatchError :=
  if token = [] ∧ !present secretData "githubAppID" then
    (none, some (.New (str "github token or github app details must be specified")))
  else if present secretData "githubAppID" ∧ !present secretData "githubAppInstallationID" then
    (none, some (.New
      (str "app installation ID must be provided to use github app authentication")))
  else if present secretData "githubAppID" ∧ !present secretData "githubAppPrivateKey" then
    (none, some (.New (str "private key must be provided to use github app authentication")))
  else
    match parseRepositoryURL addr with
    | none => (none, some (.invalidRepositoryURL addr))
    | some (host, owner, repo) =>
      (some {
        Owner := owner
        Repo := repo
        BaseURLHost := if host = str "github.com" then str "api.github.com" else host
        isEnterprise := decide (host ≠ str "github.com")
        auth :=
          if present secretData "githubAppID" then
            .app (field secretData "githubAppID") (field secretData "githubAppInstallationID")
              (field secretData "githubAppPrivateKey")
          else .staticToken token }, none)

/-- Secret data with an application ID and a private key but no
installation ID. -/
def secretWithoutInstallationID : GoMap (List UInt8) :=
  ⟨[(str "githubAppID", str "123"), (str "githubAppPrivateKey", str "key")], by decide⟩

theorem isPrefixOf_single (x c : UInt8) (s : GoString) :
    List.isPrefixOf [x] (c :: s) = (x == c) := by
  simp [List.isPrefixOf]

/-- For a one-byte separator, `strings.Index` finds the first byte equal to it. -/
theorem Index_single (x : UInt8) (s : GoString) :
    strings.Index s [x] =
      if x ∈ s then some (s.takeWhile (fun c => c != x)).length else none := by
  induction s with
  | nil => simp [strings.Index]
  | cons c s ih =>
    rw [strings.Index, isPrefixOf_single]
    by_cases h : x = c
    · subst h; simp
    · have h' : c ≠ x := fun e => h e.symm
      simp [h, h', ih, List.takeWhile_cons]

theorem take_takeWhile_length (p : UInt8 → Bool) (s : GoString) :
    s.take (s.takeWhile p).length = s.takeWhile p := by
  induction s with
  | nil => simp
  | cons c s ih =>
    by_cases h : p c <;> simp [List.takeWhile_cons, h, ih]

theorem drop_takeWhile_length (p : UInt8 → Bool) (s : GoString) :
    s.drop (s.takeWhile p).length = s.dropWhile p := by
  induction s with
  | nil => simp
  | cons c s ih =>
    by_cases h : p c <;> simp [List.takeWhile_cons, List.dropWhile_cons, h, ih]

/-- What `strings.SplitN(c, "/", 2)` returns. -/
theorem SplitN_slash (c : GoString) :
    strings.SplitN c (str "/") 2 (by decide) =
      if (47 : UInt8) ∈ c then [beforeSlash c, afterSlash c] else [c] := by
  have hs : str "/" = [47] := by decide
  cases c with
  | nil => simp [strings.SplitN, strings.splitLoop]
  | cons b s =>
    have hn : ¬ (2 > (b :: s).length + 1) := by simp
    simp only [strings.SplitN, hs]
    simp only [show ¬ ((2 : Int) = 0) by decide, show ¬ ((2 : Int) < 0) by decide, if_false,
      show (2 : Int).toNat = 2 from rfl, hn, strings.splitLoop, Index_single]
    by_cases h : (47 : UInt8) ∈ b :: s
    · simp only [h, if_true, take_takeWhile_length, List.length_singleton, ← List.drop_drop,
        drop_takeWhile_length, beforeSlash, afterSlash]
    · simp only [h, if_false]

theorem beforeSlash_append (ch topic : GoString) (h : (47 : UInt8) ∉ ch) :
    beforeSlash (ch ++ str "/" ++ topic) = ch := by
  have hs : str "/" = [47] := by decide
  rw [hs, beforeSlash]
  induction ch with
  | nil => simp [List.takeWhile_cons]
  | cons b s ih =>
    have hb : b ≠ 47 := fun e => h (by simp [e])
    have hs : (47 : UInt8) ∉ s := fun e => h (by simp [e])
    simpa [List.takeWhile_cons, hb] using ih hs

theorem afterSlash_append (ch topic : GoString) (h : (47 : UInt8) ∉ ch) :
    afterSlash (ch ++ str "/" ++ topic) = topic := by
  have hs : str "/" = [47] := by decide
  rw [hs, afterSlash]
  induction ch with
  | nil => simp [List.dropWhile_cons]
  | cons b s ih =>
    have hb : b ≠ 47 := fun e => h (by simp [e])
    have hs : (47 : UInt8) ∉ s := fun e => h (by simp [e])
    simpa [List.dropWhile_cons, hb] using ih hs

/-- What `NewZulip` returns for an endpoint that parses. -/
theorem NewZulip_of_parse {TLS : Type} (endpoint c proxyURL : GoString) (tlsConfig : Option TLS)
    (username password : GoString) (u : url.URL) (hu : url.Parse endpoint = .ok u) :
    NewZulip endpoint c proxyURL tlsConfig username password =
      if (47 : UInt8) ∉ c ∨ beforeSlash c = [] ∨ afterSlash c = [] then
        (none, some (.Errorf (fmt.Sprintf
          (str "invalid Zulip channel format, expected <channel>/<topic>, got \x27%s\x27") [c])))
      else
        (some {
          endpoint := url.URL.String { u with Path := str "/api/v1/messages" }
          channel := beforeSlash c
          topic := afterSlash c
          proxyURL := proxyURL
          tlsConfig := tlsConfig
          username := username
          password := password }, none) := by
  simp only [NewZulip, hu, SplitN_slash]
  by_cases h : (47 : UInt8) ∈ c
  · simp [h]
  · simp [h]

theorem Parse_ok_of_isOk (endpoint : GoString) (h : (url.Parse endpoint).isOk = true) :
    ∃ u, url.Parse endpoint = .ok u := by
  cases hp : url.Parse endpoint with
  | ok u => exact ⟨u, rfl⟩
  | error e => rw [hp] at h; cases h

/-- C1. For an endpoint that `url.Parse` accepts and a channel string
`ch ++ "/" ++ topic` whose part `ch` before the first `/` (byte 47) and part
`topic` after it are both non-empty, `NewZulip` returns a provider and no
error; the provider stores `ch` as channel and all of `topic`, further `/`
included, as topic, so that the stored channel holds no `/` and channel,
`/` and topic concatenate to the configured string. -/
theorem NewZulip_splits_on_first_slash {TLS : Type} (endpoint ch topic proxyURL : GoString)
    (tlsConfig : Option TLS) (username password : GoString)
    (hparse : (url.Parse endpoint).isOk = true)
    (hch : ch ≠ []) (hslash : (47 : UInt8) ∉ ch) (htopic : topic ≠ []) :
    ∃ z : Zulip TLS,
      NewZulip endpoint (ch ++ str "/" ++ topic) proxyURL tlsConfig username password
        = (some z, none)
      ∧ z.channel = ch ∧ z.topic = topic
      ∧ (47 : UInt8) ∉ z.channel
      ∧ z.channel ++ str "/" ++ z.topic = ch ++ str "/" ++ topic := by
  obtain ⟨u, hu⟩ := Parse_ok_of_isOk endpoint hparse
  have hmem : (47 : UInt8) ∈ ch ++ str "/" ++ topic := by
    have hs : str "/" = [47] := by decide
    simp [hs]
  rw [NewZulip_of_parse endpoint _ proxyURL tlsConfig username password u hu,
    beforeSlash_append ch topic hslash, afterSlash_append ch topic hslash]
  rw [if_neg (fun h => h.elim (fun h => h hmem) (fun h => h.elim hch htopic))]
  exact ⟨_, rfl, rfl, rfl, hslash, rfl⟩

/-- The claim C1 at the endpoint `https://zulip.example.com` and the channel
string `a/b/c`: the channel is `a` and the topic `b/c`. -/
theorem NewZulip_splits_on_first_slash_witness :
    ∃ z : Zulip Unit,
      NewZulip (str "https://zulip.example.com") (str "a" ++ str "/" ++ str "b/c") [] none [] []
        = (some z, none)
      ∧ z.channel = str "a" ∧ z.topic = str "b/c"
      ∧ (47 : UInt8) ∉ z.channel
      ∧ z.channel ++ str "/" ++ z.topic = str "a" ++ str "/" ++ str "b/c" :=
  NewZulip_splits_on_first_slash (str "https://zulip.example.com") (str "a") (str "b/c")
    [] none [] [] (by decide) (by decide) (by decide) (by decide)

/-- C2. For an endpoint that `url.Parse` accepts and any channel string `c`,
`NewZulip` returns an error and no provider exactly when `c` holds no `/`
(byte 47), or the text before its first `/` is empty, or the text after its
first `/` is empty; in every other case it returns a provider and no
error. -/
theorem NewZulip_error_iff {TLS : Type} (endpoint c proxyURL : GoString)
    (tlsConfig : Option TLS) (username password : GoString)
    (hparse : (url.Parse endpoint).isOk = true) :
    (((NewZulip endpoint c proxyURL tlsConfig username password).2.isSome = true
        ∧ (NewZulip endpoint c proxyURL tlsConfig username password).1.isNone = true)
      ↔ ((47 : UInt8) ∉ c ∨ c.takeWhile (fun b => b != 47) = []
          ∨ (c.dropWhile (fun b => b != 47)).drop 1 = []))
    ∧ (¬ ((47 : UInt8) ∉ c ∨ c.takeWhile (fun b => b != 47) = []
          ∨ (c.dropWhile (fun b => b != 47)).drop 1 = [])
      → (NewZulip endpoint c proxyURL tlsConfig username password).1.isSome = true
        ∧ (NewZulip endpoint c proxyURL tlsConfig username password).2.isNone = true) := by
  obtain ⟨u, hu⟩ := Parse_ok_of_isOk endpoint hparse
  rw [NewZulip_of_parse endpoint c proxyURL tlsConfig username password u hu]
  simp only [beforeSlash, afterSlash]
  by_cases h : (47 : UInt8) ∉ c ∨ c.takeWhile (fun b => b != 47) = []
      ∨ (c.dropWhile (fun b => b != 47)).drop 1 = []
  · rw [if_pos h]
    exact ⟨⟨fun _ => h, fun _ => ⟨rfl, rfl⟩⟩, fun hn => absurd h hn⟩
  · rw [if_neg h]
    exact ⟨⟨fun hc => Bool.noConfusion hc.1, fun hh => absurd hh h⟩, fun _ => ⟨rfl, rfl⟩⟩

/-- The claim C2 at the endpoint `https://zulip.example.com` and the channel
string `/topic`, whose channel part is empty: an error and no provider. -/
theorem NewZulip_error_iff_witness :
    (((@NewZulip Unit (str "https://zulip.example.com") (str "/topic") [] none [] []).2.isSome
          = true
        ∧ (@NewZulip Unit (str "https://zulip.example.com") (str "/topic") [] none [] []).1.isNone
          = true)
      ↔ ((47 : UInt8) ∉ str "/topic" ∨ (str "/topic").takeWhile (fun b => b != 47) = []
          ∨ ((str "/topic").dropWhile (fun b => b != 47)).drop 1 = []))
    ∧ (¬ ((47 : UInt8) ∉ str "/topic" ∨ (str "/topic").takeWhile (fun b => b != 47) = []
          ∨ ((str "/topic").dropWhile (fun b => b != 47)).drop 1 = [])
      → (@NewZulip Unit (str "https://zulip.example.com") (str "/topic") [] none [] []).1.isSome
          = true
        ∧ (@NewZulip Unit (str "https://zulip.example.com") (str "/topic") [] none [] []).2.isNone
          = true) :=
  NewZulip_error_iff (str "https://zulip.example.com") (str "/topic") [] none [] [] (by decide)

/-! ## The order of Go strings -/

theorem stringLess_irrefl (a : GoString) : stringLess a a = false := by
  induction a with
  | nil => rfl
  | cons x s ih => simp [stringLess, ih]

theorem stringLess_trichotomy (a b : GoString) :
    stringLess a b = true ∨ a = b ∨ stringLess b a = true := by
  induction a generalizing b with
  | nil => cases b <;> simp [stringLess]
  | cons x s ih =>
    cases b with
    | nil => simp [stringLess]
    | cons y t =>
      rcases Nat.lt_trichotomy x.toNat y.toNat with h | h | h
      · left; simp [stringLess, h]
      · have hxy : x = y := UInt8.ext h
        subst hxy
        rcases ih t with h1 | h1 | h1
        · left; simp [stringLess, h1]
        · right; left; rw [h1]
        · right; right; simp [stringLess, h1]
      · right; right; simp [stringLess, h]

theorem stringLess_trans (a b c : GoString) (hab : stringLess a b = true)
    (hbc : stringLess b c = true) : stringLess a c = true := by
  induction a generalizing b c with
  | nil =>
    cases c with
    | nil => cases b <;> simp [stringLess] at hbc
    | cons z u => rfl
  | cons x s ih =>
    cases b with
    | nil => simp [stringLess] at hab
    | cons y t =>
      cases c with
      | nil => simp [stringLess] at hbc
      | cons z u =>
        simp only [stringLess, Bool.or_eq_true, decide_eq_true_eq, Bool.and_eq_true,
          beq_iff_eq] at hab hbc ⊢
        rcases hab with h1 | ⟨h1, h1'⟩ <;> rcases hbc with h2 | ⟨h2, h2'⟩
        · left; omega
        · subst h2; left; exact h1
        · subst h1; left; exact h2
        · subst h1; subst h2; right; exact ⟨rfl, ih t u h1' h2'⟩

theorem stringLess_asymm (a b : GoString) (hab : stringLess a b = true) :
    stringLess b a = false := by
  cases h : stringLess b a with
  | false => rfl
  | true =>
    have := stringLess_trans a b a hab h
    rw [stringLess_irrefl] at this
    cases this

instance : IsTotal GoString stringLE where
  total a b := by
    unfold stringLE
    cases h : stringLess b a with
    | false => exact Or.inl rfl
    | true => exact Or.inr (stringLess_asymm b a h)

instance : IsTrans GoString stringLE where
  trans a b c hab hbc := by
    unfold stringLE at *
    cases h : stringLess c a with
    | false => rfl
    | true =>
      rcases stringLess_trichotomy a b with h1 | h1 | h1
      · rw [stringLess_trans c a b h h1] at hbc; cases hbc
      · subst h1; rw [h] at hbc; cases hbc
      · rw [h1] at hab; cases hab

instance : IsAntisymm GoString stringLE where
  antisymm a b hab hba := by
    unfold stringLE at *
    rcases stringLess_trichotomy a b with h1 | h1 | h1
    · rw [h1] at hba; cases hba
    · exact h1
    · rw [h1] at hab; cases hab

/-- The result of `slices.Sort` is in ascending order. -/
theorem sort_sorted (x : List GoString) : (slices.sort x).Sorted stringLE :=
  List.sorted_insertionSort stringLE x

/-- The result of `slices.Sort` is a rearrangement of its argument. -/
theorem sort_perm (x : List GoString) : (slices.sort x).Perm x :=
  List.perm_insertionSort stringLE x

/-- The result of `slices.Sort` depends only on the elements, not on their order. -/
theorem sort_eq_of_perm (x y : List GoString) (h : x.Perm y) : slices.sort x = slices.sort y :=
  List.eq_of_perm_of_sorted (((sort_perm x).trans h).trans (sort_perm y).symm)
    (sort_sorted x) (sort_sorted y)

/-- An ascending rearrangement of `x` is the result of `slices.Sort`: the
sorting algorithm does not matter. -/
theorem sort_unique (x y : List GoString) (hperm : y.Perm x) (hsorted : y.Sorted stringLE) :
    y = slices.sort x :=
  List.eq_of_perm_of_sorted (hperm.trans (sort_perm x).symm) hsorted (sort_sorted x)

/-- Sorting pairwise distinct strings leaves them strictly ascending. -/
theorem sort_strict (x : List GoString) (h : x.Nodup) :
    (slices.sort x).Pairwise (fun a b => stringLess a b = true) := by
  have h1 : (slices.sort x).Pairwise stringLE := sort_sorted x
  have h2 : (slices.sort x).Pairwise (fun a b => a ≠ b) := (sort_perm x).nodup_iff.2 h
  refine (h1.and h2).imp ?_
  intro a b hab
  rcases stringLess_trichotomy a b with h3 | h3 | h3
  · exact h3
  · exact absurd h3 hab.2
  · have := hab.1; unfold stringLE at this; rw [h3] at this; cases this

/-! ## Go maps -/

theorem lookup_eq_some_of_mem {V : Type} (l : List (GoString × V))
    (hn : (l.map Prod.fst).Nodup) (k : GoString) (v : V) (h : (k, v) ∈ l) :
    l.lookup k = some v := by
  induction l with
  | nil => cases h
  | cons p l ih =>
    obtain ⟨k', v'⟩ := p
    rw [List.map_cons, List.nodup_cons] at hn
    rcases List.mem_cons.1 h with e | e
    · cases e; simp
    · have hne : k ≠ k' := by
        intro e'; subst e'
        exact hn.1 (List.mem_map.2 ⟨(k, v), e, rfl⟩)
      have hb : (k == k') = false := beq_eq_false_iff_ne.2 hne
      rw [List.lookup_cons, hb]
      exact ih hn.2 e

theorem mem_of_lookup_eq_some {V : Type} (l : List (GoString × V)) (k : GoString) (v : V)
    (h : l.lookup k = some v) : (k, v) ∈ l := by
  induction l with
  | nil => simp at h
  | cons p l ih =>
    obtain ⟨k', v'⟩ := p
    rw [List.lookup_cons] at h
    cases hb : k == k' with
    | true =>
      rw [hb] at h
      have e : k = k' := beq_iff_eq.1 hb
      cases h; subst e; exact List.mem_cons_self _ _
    | false =>
      rw [hb] at h
      exact List.mem_cons_of_mem _ (ih h)

/-- The value a map holds under a key does not depend on the order of its entries. -/
theorem GoMap.get_eq_of_perm {V : Type} (m m' : GoMap V) (h : m'.entries.Perm m.entries)
    (k : GoString) (zero : V) : m'.get k zero = m.get k zero := by
  unfold GoMap.get
  cases h1 : m.entries.lookup k with
  | some v =>
    have := mem_of_lookup_eq_some _ _ _ h1
    rw [lookup_eq_some_of_mem _ m'.nodup k v (h.symm.subset this)]
  | none =>
    cases h2 : m'.entries.lookup k with
    | none => rfl
    | some v =>
      have := mem_of_lookup_eq_some _ _ _ h2
      rw [lookup_eq_some_of_mem _ m.nodup k v (h.subset this)] at h1
      cases h1

/-! ## The text of the message -/

theorem Sprintf_bullet (k v : GoString) :
    fmt.Sprintf (str "- **%s**: `%s`") [k, v] = bullet k v := by
  have h : fmt.Sprintf (str "- **%s**: `%s`") [k, v]
      = str "- **" ++ (k ++ (str "**: `" ++ (v ++ (str "`" ++ [])))) := rfl
  rw [h, bullet]; simp

theorem Sprintf_content (header msg md : GoString) :
    fmt.Sprintf (str "%[1]s\n\n%[2]s\n\nMetadata:\n%[3]s") [header, msg, md]
      = header ++ str "\n\n" ++ msg ++ str "\n\nMetadata:\n" ++ md := by
  have h : fmt.Sprintf (str "%[1]s\n\n%[2]s\n\nMetadata:\n%[3]s") [header, msg, md]
      = header ++ (str "\n\n" ++ (msg ++ (str "\n\nMetadata:\n" ++ (md ++ [])))) := rfl
  rw [h]; simp

/-- The bullets are those of the entries, taken in the order of the sorted keys. -/
theorem metadataLines_eq (m : GoMap GoString) :
    Zulip.metadataLines m
      = ((slices.sort m.keys).map fun k => (k, m.get k [])).map fun e => bullet e.1 e.2 := by
  simp only [Zulip.metadataLines, List.map_map]
  apply List.map_congr_left
  intro k _
  exact Sprintf_bullet k _

theorem entries_of_keys (m : GoMap GoString) :
    (m.keys.map fun k => (k, m.get k [])) = m.entries := by
  unfold GoMap.keys
  rw [List.map_map]
  conv => rhs; rw [← List.map_id m.entries]
  apply List.map_congr_left
  intro e he
  obtain ⟨k, v⟩ := e
  simp only [Function.comp, GoMap.get, id]
  rw [lookup_eq_some_of_mem _ m.nodup k v he]
  rfl

/-- C3. For every event, the metadata section of the message is the join by
newlines of one bullet "- **key**: `value`" per entry of the metadata map,
the entries being taken with their keys in strictly ascending byte-wise
lexicographic order; it follows everything else in the content; and an event
whose metadata map holds the same entries in another iteration order gives
the same section. -/
theorem metadata_section_sorted (mapLower : GoString → GoString) (event : Event) :
    (∃ es : List (GoString × GoString),
        es.Perm event.Metadata.entries
        ∧ es.Pairwise (fun a b => stringLess a.1 b.1 = true)
        ∧ strings.Join (Zulip.metadataLines event.Metadata) (str "\n")
            = (str "\n").intercalate (es.map fun e => bullet e.1 e.2))
    ∧ (∃ pre : GoString, Zulip.content mapLower event
        = pre ++ str "Metadata:\n" ++ strings.Join (Zulip.metadataLines event.Metadata) (str "\n"))
    ∧ (∀ event' : Event, event'.Metadata.entries.Perm event.Metadata.entries →
        strings.Join (Zulip.metadataLines event'.Metadata) (str "\n")
          = strings.Join (Zulip.metadataLines event.Metadata) (str "\n")) := by
  refine ⟨⟨(slices.sort event.Metadata.keys).map fun k => (k, event.Metadata.get k []),
      ?_, ?_, ?_⟩, ?_, ?_⟩
  · have h := (sort_perm event.Metadata.keys).map fun k => (k, event.Metadata.get k [])
    rwa [entries_of_keys] at h
  · rw [List.pairwise_map]
    exact sort_strict _ event.Metadata.nodup
  · rw [metadataLines_eq]; rfl
  · have h : str "\n\nMetadata:\n" = str "\n\n" ++ str "Metadata:\n" := by decide
    simp only [Zulip.content]
    rw [Sprintf_content, h, ← List.append_assoc]
    exact ⟨_, rfl⟩
  · intro event' hperm
    have hk : event'.Metadata.keys.Perm event.Metadata.keys := hperm.map Prod.fst
    rw [metadataLines_eq, metadataLines_eq, sort_eq_of_perm _ _ hk]
    congr 2
    apply List.map_congr_left
    intro k _
    rw [GoMap.get_eq_of_perm _ _ hperm]

theorem Sprintf_obj (kind name ns : GoString) :
    fmt.Sprintf (str "%s/%s.%s") [kind, name, ns] = kind ++ str "/" ++ name ++ str "." ++ ns := by
  have h : fmt.Sprintf (str "%s/%s.%s") [kind, name, ns]
      = kind ++ (str "/" ++ (name ++ (str "." ++ (ns ++ [])))) := rfl
  rw [h]; simp

theorem Sprintf_error_header (obj : GoString) :
    fmt.Sprintf (str "⚠️ Error: `%s`") [obj] = str "⚠️ Error: `" ++ obj ++ str "`" := by
  have h : fmt.Sprintf (str "⚠️ Error: `%s`") [obj]
      = str "⚠️ Error: `" ++ (obj ++ (str "`" ++ [])) := rfl
  rw [h]; simp

theorem Sprintf_info_header (obj : GoString) :
    fmt.Sprintf (str "ℹ️ Info: `%s`") [obj] = str "ℹ️ Info: `" ++ obj ++ str "`" := by
  have h : fmt.Sprintf (str "ℹ️ Info: `%s`") [obj]
      = str "ℹ️ Info: `" ++ (obj ++ (str "`" ++ [])) := rfl
  rw [h]; simp

theorem Sprintf_msg (message : GoString) :
    fmt.Sprintf (str "`%s`") [message] = str "`" ++ message ++ str "`" := by
  have h : fmt.Sprintf (str "`%s`") [message] = str "`" ++ (message ++ (str "`" ++ [])) := rfl
  rw [h]; simp

/-- The content as a concatenation. -/
theorem content_eq (mapLower : GoString → GoString) (event : Event) :
    Zulip.content mapLower event
      = (if event.Severity = EventSeverityError then
            str "⚠️ Error: `"
              ++ (strings.ToLower mapLower event.InvolvedObject.Kind ++ str "/"
                  ++ event.InvolvedObject.Name ++ str "." ++ event.InvolvedObject.Namespace)
              ++ str "`"
          else
            str "ℹ️ Info: `"
              ++ (strings.ToLower mapLower event.InvolvedObject.Kind ++ str "/"
                  ++ event.InvolvedObject.Name ++ str "." ++ event.InvolvedObject.Namespace)
              ++ str "`")
        ++ str "\n\n" ++ (str "`" ++ event.Message ++ str "`") ++ str "\n\nMetadata:\n"
        ++ strings.Join (Zulip.metadataLines event.Metadata) (str "\n") := by
  simp only [Zulip.content]
  rw [Sprintf_content, Sprintf_obj, Sprintf_error_header, Sprintf_info_header, Sprintf_msg]

/-- What `strings.ToLower` returns: a text of ASCII bytes with every letter
`A` to `Z` (bytes 65 to 90) replaced by its lower-case letter (the byte plus
32), any other text mapped by the Unicode branch. -/
theorem ToLower_eq (mapLower : GoString → GoString) (s : GoString) :
    strings.ToLower mapLower s
      = if s.all (fun c => decide (c.toNat < 128)) then
          s.map (fun c => if 65 ≤ c.toNat ∧ c.toNat ≤ 90 then UInt8.ofNat (c.toNat + 32) else c)
        else mapLower s := rfl

/-- C6. For every event, the content is header, an empty line, the message
between backticks, an empty line, the line `Metadata:` and the metadata
bullets, where the object is the lower-cased kind, `/`, the name, `.` and
the namespace, and the header is "⚠️ Error: `object`" for the severity
`error` and "ℹ️ Info: `object`" for every other severity. The lower-cased
kind is, for a kind of ASCII bytes, the kind with every letter `A` to `Z`
(bytes 65 to 90) replaced by its lower-case letter (the byte plus 32), and
for any other kind its image under the Unicode lower-casing. The message is
copied byte for byte. The event of kind `Kustomization` with severity
`error`, the event of kind `HelmRelease` with severity `info`, and the
event whose fields are all empty and whose metadata map is nil, with the
object `/.`, show the text byte for byte. -/
theorem content_format (mapLower : GoString → GoString) (event : Event) :
    Zulip.content mapLower event
      = (if event.Severity = str "error" then
            str "⚠️ Error: `"
              ++ ((if event.InvolvedObject.Kind.all (fun c => decide (c.toNat < 128)) then
                      event.InvolvedObject.Kind.map (fun c =>
                        if 65 ≤ c.toNat ∧ c.toNat ≤ 90 then UInt8.ofNat (c.toNat + 32) else c)
                    else mapLower event.InvolvedObject.Kind) ++ str "/"
                  ++ event.InvolvedObject.Name ++ str "." ++ event.InvolvedObject.Namespace)
              ++ str "`"
          else
            str "ℹ️ Info: `"
              ++ ((if event.InvolvedObject.Kind.all (fun c => decide (c.toNat < 128)) then
                      event.InvolvedObject.Kind.map (fun c =>
                        if 65 ≤ c.toNat ∧ c.toNat ≤ 90 then UInt8.ofNat (c.toNat + 32) else c)
                    else mapLower event.InvolvedObject.Kind) ++ str "/"
                  ++ event.InvolvedObject.Name ++ str "." ++ event.InvolvedObject.Namespace)
              ++ str "`")
        ++ str "\n\n" ++ (str "`" ++ event.Message ++ str "`") ++ str "\n\nMetadata:\n"
        ++ strings.Join (Zulip.metadataLines event.Metadata) (str "\n")
    ∧ Zulip.content mapLower
          { InvolvedObject :=
              { Kind := str "Kustomization", Name := str "webapp", Namespace := str "flux-system" }
            Severity := str "error"
            Message := str "Health check FAILED"
            Metadata := ⟨[(str "revision", str "main@sha1:6db878"), (str "Cluster", str "EU")],
              by decide⟩ }
        = str ("⚠️ Error: `kustomization/webapp.flux-system`\n\n`Health check FAILED`\n\n"
            ++ "Metadata:\n- **Cluster**: `EU`\n- **revision**: `main@sha1:6db878`")
    ∧ Zulip.content mapLower
          { InvolvedObject :=
              { Kind := str "HelmRelease", Name := str "API-v2", Namespace := str "Prod" }
            Severity := str "info"
            Message := str "Upgrade OK"
            Metadata := ⟨[], List.nodup_nil⟩ }
        = str "ℹ️ Info: `helmrelease/API-v2.Prod`\n\n`Upgrade OK`\n\nMetadata:\n"
    ∧ Zulip.content mapLower
          { InvolvedObject := { Kind := [], Name := [], Namespace := [] }
            Severity := []
            Message := []
            Metadata := ⟨[], List.nodup_nil⟩ }
        = str "ℹ️ Info: `/.`\n\n``\n\nMetadata:\n" := by
  refine ⟨?_, rfl, rfl, rfl⟩
  rw [content_eq, ToLower_eq]
  rfl

/-- C9. For every dispatch primitive, provider, context and event,
`Zulip.Post` is one call of `postMessage` with the stored endpoint, the
form-encoded payload and the options proxy, TLS configuration, basic
authentication and content type `application/x-www-form-urlencoded`, in
this order, and returns what the call returns; run against a primitive that
logs its calls, `Post` adds exactly one call to the log and returns the
error of that call, or nil when it has none. -/
theorem Post_dispatches_once {Ctx TLS Opt Err World : Type}
    (d : Dispatch Ctx TLS Opt Err World) (mapLower : GoString → GoString)
    (z : Zulip TLS) (ctx : Ctx) (event : Event) (w : World) :
    Zulip.Post d mapLower z ctx event w
      = d.postMessage ctx z.endpoint (z.payload (Zulip.content mapLower event))
          [d.withProxy z.proxyURL,
           d.withTLSConfig z.tlsConfig,
           d.withBasicAuth z.username z.password,
           d.withContentType (str "application/x-www-form-urlencoded")] w
    ∧ ∀ (respond : Call Ctx TLS → Option Err) (log : List (Call Ctx TLS)),
        Zulip.Post (recorder respond) mapLower z ctx event log
          = (respond ⟨ctx, z.endpoint, z.payload (Zulip.content mapLower event),
                [.withProxy z.proxyURL,
                 .withTLSConfig z.tlsConfig,
                 .withBasicAuth z.username z.password,
                 .withContentType (str "application/x-www-form-urlencoded")]⟩,
             log ++ [⟨ctx, z.endpoint, z.payload (Zulip.content mapLower event),
                [.withProxy z.proxyURL,
                 .withTLSConfig z.tlsConfig,
                 .withBasicAuth z.username z.password,
                 .withContentType (str "application/x-www-form-urlencoded")]⟩]) :=
  ⟨rfl, fun _ _ => rfl⟩

/-! ## Form encoding and decoding -/

theorem Contains_single (x : UInt8) (s : GoString) :
    strings.Contains s [x] = decide (x ∈ s) := by
  rw [strings.Contains, Index_single]
  by_cases h : x ∈ s <;> simp [h]

theorem Cut_single_of_not_mem (x : UInt8) (p : GoString) (h : x ∉ p) :
    strings.Cut p [x] = (p, [], false) := by
  rw [strings.Cut, Index_single, if_neg h]

theorem takeWhile_append_of_not_mem (x : UInt8) (p r : GoString) (h : x ∉ p) :
    (p ++ x :: r).takeWhile (fun c => c != x) = p := by
  induction p with
  | nil => simp [List.takeWhile_cons]
  | cons b s ih =>
    have hb : b ≠ x := fun e => h (by simp [e])
    have hs : x ∉ s := fun e => h (by simp [e])
    simp [List.takeWhile_cons, hb, ih hs]

theorem Cut_single_append (x : UInt8) (p r : GoString) (h : x ∉ p) :
    strings.Cut (p ++ x :: r) [x] = (p, r, true) := by
  have hm : x ∈ p ++ x :: r := by simp
  rw [strings.Cut, Index_single, if_pos hm]
  simp only [takeWhile_append_of_not_mem x p r h, List.length_singleton]
  have hd : (p ++ x :: r).drop (p.length + 1) = r := by
    rw [← List.drop_drop]; simp
  rw [List.take_left, hd]

theorem byte_eq (c : UInt8) : UInt8.ofNat c.toNat = c := by
  apply UInt8.ext
  show (UInt8.ofNat c.toNat).toNat = c.toNat
  simp only [UInt8.toNat, UInt8.ofNat, BitVec.ofNat_toNat, BitVec.setWidth_eq]

/-- A property that holds of the 256 byte values holds of every byte. -/
theorem all_bytes (P : UInt8 → Prop) (h : ∀ n : Fin 256, P (UInt8.ofNat n.val)) (c : UInt8) :
    P c := by
  have := h ⟨c.toNat, UInt8.toNat_lt c⟩
  rwa [byte_eq] at this

open url encoding in
theorem query_bytes (c : UInt8) :
    (shouldEscape c encodeQueryComponent = true →
      ishex (upperhex (c.toNat / 16)) = true
      ∧ ishex (upperhex (c.toNat % 16)) = true
      ∧ unhex2 (upperhex (c.toNat / 16)) (upperhex (c.toNat % 16)) = c
      ∧ upperhex (c.toNat / 16) ≠ 38 ∧ upperhex (c.toNat / 16) ≠ 61
      ∧ upperhex (c.toNat / 16) ≠ 59
      ∧ upperhex (c.toNat % 16) ≠ 38 ∧ upperhex (c.toNat % 16) ≠ 61
      ∧ upperhex (c.toNat % 16) ≠ 59)
    ∧ (shouldEscape c encodeQueryComponent = false →
      c ≠ 37 ∧ c ≠ 43 ∧ c ≠ 38 ∧ c ≠ 61 ∧ c ≠ 59 ∧ c ≠ 32) := by
  revert c
  apply all_bytes
  decide

theorem QueryEscape_cons (c : UInt8) (s : GoString) :
    url.QueryEscape (c :: s) = escapeByte c ++ url.QueryEscape s := by
  simp [url.QueryEscape, url.escape, escapeByte]

theorem escapeByte_clean (c x : UInt8) (hx : x ∈ escapeByte c) : x ≠ 38 ∧ x ≠ 61 ∧ x ≠ 59 := by
  have hq := query_bytes c
  unfold escapeByte at hx
  by_cases h32 : c = 32
  · rw [if_pos h32] at hx
    simp at hx; subst hx; decide
  · rw [if_neg h32] at hx
    cases hs : url.shouldEscape c .encodeQueryComponent with
    | true =>
      rw [hs] at hx
      obtain ⟨_, _, _, h1, h2, h3, h4, h5, h6⟩ := hq.1 hs
      simp at hx
      rcases hx with hx | hx | hx
      · subst hx; decide
      · subst hx; exact ⟨h1, h2, h3⟩
      · subst hx; exact ⟨h4, h5, h6⟩
    | false =>
      rw [hs] at hx
      obtain ⟨_, _, h1, h2, h3, _⟩ := hq.2 hs
      simp at hx; subst hx; exact ⟨h1, h2, h3⟩

/-- An escaped query component holds none of `&`, `=`, `;`. -/
theorem QueryEscape_clean (s : GoString) (x : UInt8) (hx : x ∈ url.QueryEscape s) :
    x ≠ 38 ∧ x ≠ 61 ∧ x ≠ 59 := by
  induction s with
  | nil => simp [url.QueryEscape, url.escape] at hx
  | cons c s ih =>
    rw [QueryEscape_cons] at hx
    rcases List.mem_append.1 hx with h | h
    · exact escapeByte_clean c x h
    · exact ih h

/-- The step of `unescape` at a byte other than `%`, for a query component. -/
theorem unescape_query_cons (c : UInt8) (t : GoString) (h : c ≠ 37) :
    url.unescape (c :: t) .encodeQueryComponent
      = match url.unescape t .encodeQueryComponent with
        | .ok r => .ok ((if c = 43 then 32 else c) :: r)
        | .error e => .error e := by
  rcases t with _ | ⟨a, _ | ⟨b, r⟩⟩ <;> simp [url.unescape, h]

theorem unescape_escapeByte (c : UInt8) (t : GoString) :
    url.unescape (escapeByte c ++ t) .encodeQueryComponent
      = match url.unescape t .encodeQueryComponent with
        | .ok r => .ok (c :: r)
        | .error e => .error e := by
  have hq := query_bytes c
  unfold escapeByte
  by_cases h32 : c = 32
  · rw [if_pos h32, h32]
    show url.unescape (43 :: t) .encodeQueryComponent = _
    rw [unescape_query_cons 43 t (by decide)]
    simp
  · rw [if_neg h32]
    cases hs : url.shouldEscape c .encodeQueryComponent with
    | true =>
      obtain ⟨h1, h2, h3, _⟩ := hq.1 hs
      simp [url.unescape, h1, h2, h3]
    | false =>
      obtain ⟨h1, h2, _⟩ := hq.2 hs
      show url.unescape (c :: t) .encodeQueryComponent = _
      rw [unescape_query_cons c t h1]
      simp [h2]

/-- Unescaping undoes the escaping of a query component. -/
theorem QueryUnescape_QueryEscape (s : GoString) :
    url.QueryUnescape (url.QueryEscape s) = .ok s := by
  induction s with
  | nil => simp [url.QueryUnescape, url.QueryEscape, url.escape, url.unescape]
  | cons c s ih =>
    rw [QueryEscape_cons, url.QueryUnescape, unescape_escapeByte]
    rw [url.QueryUnescape] at ih
    rw [ih]

/-- The payload as a text: the four fields in the order of their keys. -/
theorem payload_eq {TLS : Type} (z : Zulip TLS) (content : GoString) :
    z.payload content
      = url.QueryEscape (str "content") ++ [61] ++ url.QueryEscape content ++ 38 ::
        (url.QueryEscape (str "to") ++ [61] ++ url.QueryEscape z.channel ++ 38 ::
        (url.QueryEscape (str "topic") ++ [61] ++ url.QueryEscape z.topic ++ 38 ::
        (url.QueryEscape (str "type") ++ [61] ++ url.QueryEscape (str "stream")))) := by
  have hsort : slices.sort [str "type", str "to", str "topic", str "content"]
      = [str "content", str "to", str "topic", str "type"] := by decide
  have hnd : (List.map Prod.fst
      [(str "type", [str "stream"]), (str "to", [z.channel]), (str "topic", [z.topic]),
        (str "content", [content])]).Nodup := by
    show List.Nodup [str "type", str "to", str "topic", str "content"]
    decide
  have h1 : List.lookup (str "content")
      [(str "type", [str "stream"]), (str "to", [z.channel]), (str "topic", [z.topic]),
        (str "content", [content])] = some [content] := by
    apply lookup_eq_some_of_mem _ hnd; simp
  have h2 : List.lookup (str "to")
      [(str "type", [str "stream"]), (str "to", [z.channel]), (str "topic", [z.topic]),
        (str "content", [content])] = some [z.channel] := by
    apply lookup_eq_some_of_mem _ hnd; simp
  have h3 : List.lookup (str "topic")
      [(str "type", [str "stream"]), (str "to", [z.channel]), (str "topic", [z.topic]),
        (str "content", [content])] = some [z.topic] := by
    apply lookup_eq_some_of_mem _ hnd; simp
  have h4 : List.lookup (str "type")
      [(str "type", [str "stream"]), (str "to", [z.channel]), (str "topic", [z.topic]),
        (str "content", [content])] = some [str "stream"] := by
    apply lookup_eq_some_of_mem _ hnd; simp
  have hs1 : str "=" = [61] := by decide
  have hs2 : str "&" = [38] := by decide
  simp only [Zulip.payload, url.Values.Encode, GoMap.keys, GoMap.get, List.map_cons,
    List.map_nil, hsort, List.flatMap_cons, List.flatMap_nil, h1, h2, h3, h4, Option.getD_some,
    strings.Join, hs1, hs2]
  simp [List.intercalate]

/-- One iteration of the loop of `parseQuery` on a piece `key=value` that
`QueryEscape` produced and that is followed by `&`. -/
theorem parseQueryLoop_step (fuel : Nat) (m : url.Values) (err : Option url.Cause)
    (k v rest : GoString) :
    url.parseQueryLoop (fuel + 1) m err
        (url.QueryEscape k ++ [61] ++ url.QueryEscape v ++ 38 :: rest)
      = url.parseQueryLoop fuel (m.set k (m.get k [] ++ [v])) err rest := by
  have hs1 : str "=" = [61] := by decide
  have hs2 : str "&" = [38] := by decide
  have hs3 : str ";" = [59] := by decide
  have hk38 : (38 : UInt8) ∉ url.QueryEscape k ++ [61] ++ url.QueryEscape v := by
    intro h
    simp only [List.mem_append, List.mem_singleton] at h
    rcases h with (h | h) | h
    · exact (QueryEscape_clean k _ h).1 rfl
    · exact absurd h (by decide)
    · exact (QueryEscape_clean v _ h).1 rfl
  have hk59 : (59 : UInt8) ∉ url.QueryEscape k ++ [61] ++ url.QueryEscape v := by
    intro h
    simp only [List.mem_append, List.mem_singleton] at h
    rcases h with (h | h) | h
    · exact (QueryEscape_clean k _ h).2.2 rfl
    · exact absurd h (by decide)
    · exact (QueryEscape_clean v _ h).2.2 rfl
  have hk61 : (61 : UInt8) ∉ url.QueryEscape k := fun h => (QueryEscape_clean k _ h).2.1 rfl
  have hne : url.QueryEscape k ++ [61] ++ url.QueryEscape v ++ 38 :: rest ≠ [] := by simp
  have hne2 : url.QueryEscape k ++ [61] ++ url.QueryEscape v ≠ [] := by simp
  have hcut2 : strings.Cut (url.QueryEscape k ++ [61] ++ url.QueryEscape v) [61]
      = (url.QueryEscape k, url.QueryEscape v, true) := by
    rw [List.append_assoc]
    exact Cut_single_append 61 _ _ hk61
  rw [url.parseQueryLoop]
  simp only [hne, if_false, hs1, hs2, hs3, Cut_single_append 38 _ rest hk38, Contains_single,
    hk59, decide_False, hne2, hcut2, QueryUnescape_QueryEscape]
  simp

/-- The last iteration: a piece `key=value` that ends the query. -/
theorem parseQueryLoop_last (fuel : Nat) (m : url.Values) (err : Option url.Cause)
    (k v : GoString) :
    url.parseQueryLoop (fuel + 1) m err (url.QueryEscape k ++ [61] ++ url.QueryEscape v)
      = (m.set k (m.get k [] ++ [v]), err) := by
  have hs1 : str "=" = [61] := by decide
  have hs2 : str "&" = [38] := by decide
  have hs3 : str ";" = [59] := by decide
  have hk38 : (38 : UInt8) ∉ url.QueryEscape k ++ [61] ++ url.QueryEscape v := by
    intro h
    simp only [List.mem_append, List.mem_singleton] at h
    rcases h with (h | h) | h
    · exact (QueryEscape_clean k _ h).1 rfl
    · exact absurd h (by decide)
    · exact (QueryEscape_clean v _ h).1 rfl
  have hk59 : (59 : UInt8) ∉ url.QueryEscape k ++ [61] ++ url.QueryEscape v := by
    intro h
    simp only [List.mem_append, List.mem_singleton] at h
    rcases h with (h | h) | h
    · exact (QueryEscape_clean k _ h).2.2 rfl
    · exact absurd h (by decide)
    · exact (QueryEscape_clean v _ h).2.2 rfl
  have hk61 : (61 : UInt8) ∉ url.QueryEscape k := fun h => (QueryEscape_clean k _ h).2.1 rfl
  have hne2 : url.QueryEscape k ++ [61] ++ url.QueryEscape v ≠ [] := by simp
  have hcut2 : strings.Cut (url.QueryEscape k ++ [61] ++ url.QueryEscape v) [61]
      = (url.QueryEscape k, url.QueryEscape v, true) := by
    rw [List.append_assoc]
    exact Cut_single_append 61 _ _ hk61
  have hend : ∀ (f : Nat) (m : url.Values), url.parseQueryLoop f m err [] = (m, err) := by
    intro f m; cases f <;> simp [url.parseQueryLoop]
  rw [url.parseQueryLoop]
  simp only [hne2, if_false, hs1, hs2, hs3, Cut_single_of_not_mem 38 _ hk38, Contains_single,
    hk59, decide_False, hcut2, QueryUnescape_QueryEscape, hend]
  simp

/-- What the decoder returns for the payload. -/
theorem ParseQuery_payload {TLS : Type} (z : Zulip TLS) (content : GoString) :
    ((url.ParseQuery (z.payload content)).1.entries
        = [(str "content", [content]), (str "to", [z.channel]), (str "topic", [z.topic]),
            (str "type", [str "stream"])])
      ∧ (url.ParseQuery (z.payload content)).2 = none := by
  have hlen : ∃ f, (z.payload content).length + 1 = f + 1 + 1 + 1 + 1 := by
    refine ⟨(z.payload content).length - 3, ?_⟩
    have : 3 ≤ (z.payload content).length := by
      rw [payload_eq]; simp only [List.length_append, List.length_cons]; omega
    omega
  obtain ⟨f, hf⟩ := hlen
  have h12 : (str "to" == str "content") = false := by decide
  have h13 : (str "topic" == str "content") = false := by decide
  have h14 : (str "type" == str "content") = false := by decide
  have h23 : (str "topic" == str "to") = false := by decide
  have h24 : (str "type" == str "to") = false := by decide
  have h34 : (str "type" == str "topic") = false := by decide
  have e12 : str "content" ≠ str "to" := by decide
  have e13 : str "content" ≠ str "topic" := by decide
  have e14 : str "content" ≠ str "type" := by decide
  have e23 : str "to" ≠ str "topic" := by decide
  have e24 : str "to" ≠ str "type" := by decide
  have e34 : str "topic" ≠ str "type" := by decide
  rw [url.ParseQuery, hf]
  conv => lhs; rw [payload_eq]
  conv => rhs; rw [payload_eq]
  rw [parseQueryLoop_step, parseQueryLoop_step, parseQueryLoop_step, parseQueryLoop_last]
  simp [GoMap.set, GoMap.setEntries, GoMap.get, List.lookup, h12, h13, h14, h23, h24, h34,
    e12, e13, e14, e23, e24, e34]

/-- C4. For every provider and event, the request body is the form encoding
of the four fields `content`, `to`, `topic` and `type`, each with one
value, escaped and joined by `&`; decoding it with `url.ParseQuery` succeeds
and yields a map with exactly the entries `type` = `stream`, `to` = the
channel, `topic` = the topic and `content` = the content, every value being
the original byte sequence, whatever bytes it holds. -/
theorem payload_form_roundtrip {TLS : Type} (mapLower : GoString → GoString) (z : Zulip TLS)
    (event : Event) :
    (url.ParseQuery (z.payload (Zulip.content mapLower event))).2 = none
    ∧ (url.ParseQuery (z.payload (Zulip.content mapLower event))).1.entries.Perm
        [(str "type", [str "stream"]),
         (str "to", [z.channel]),
         (str "topic", [z.topic]),
         (str "content", [Zulip.content mapLower event])]
    ∧ z.payload (Zulip.content mapLower event)
        = str "content=" ++ url.QueryEscape (Zulip.content mapLower event)
          ++ str "&to=" ++ url.QueryEscape z.channel
          ++ str "&topic=" ++ url.QueryEscape z.topic
          ++ str "&type=stream" := by
  refine ⟨(ParseQuery_payload z _).2, ?_, ?_⟩
  · rw [(ParseQuery_payload z _).1]
    have h : [(str "type", [str "stream"]), (str "to", [z.channel]), (str "topic", [z.topic]),
          (str "content", [Zulip.content mapLower event])]
        = ([(str "content", [Zulip.content mapLower event]), (str "topic", [z.topic]),
          (str "to", [z.channel]), (str "type", [str "stream"])]).reverse := rfl
    rw [h]
    refine List.Perm.trans ?_ (List.reverse_perm _).symm
    exact List.Perm.cons _ (List.Perm.swap _ _ _)
  · rw [payload_eq]
    have h1 : url.QueryEscape (str "content") ++ [61] = str "content=" := by decide
    have h2 : (38 : UInt8) :: (url.QueryEscape (str "to") ++ [61]) = str "&to=" := by decide
    have h3 : (38 : UInt8) :: (url.QueryEscape (str "topic") ++ [61]) = str "&topic=" := by decide
    have h4 : (38 : UInt8) :: (url.QueryEscape (str "type") ++ [61]
        ++ url.QueryEscape (str "stream")) = str "&type=stream" := by decide
    rw [h1, ← h2, ← h3, ← h4]
    simp

/-! ## Parsing and printing an endpoint `scheme://host[:port]` -/

theorem Index_single_none (x : UInt8) (s : GoString) (h : x ∉ s) :
    strings.Index s [x] = none := by
  rw [Index_single, if_neg h]

theorem LastIndex_single_none (x : UInt8) (s : GoString) (h : x ∉ s) :
    strings.LastIndex s [x] = none := by
  induction s with
  | nil => simp [strings.LastIndex]
  | cons c s ih =>
    have hc : x ≠ c := fun e => h (by simp [e])
    have hs : x ∉ s := fun e => h (by simp [e])
    rw [strings.LastIndex, ih hs, isPrefixOf_single]
    simp [hc]

theorem LastIndex_single_append (x : UInt8) (p t : GoString) (h : x ∉ t) :
    strings.LastIndex (p ++ x :: t) [x] = some p.length := by
  induction p with
  | nil =>
    rw [List.nil_append, strings.LastIndex, LastIndex_single_none x t h, isPrefixOf_single]
    simp
  | cons c s ih =>
    rw [List.cons_append, strings.LastIndex, ih]
    simp

theorem Count_single_zero (x : UInt8) (s : GoString) (h : x ∉ s) :
    strings.Count s [x] = 0 := by
  rw [strings.Count, strings.countLoop, Index_single_none x s h]

/-- The facts on the bytes of a host name, of a port and of a lower-case
scheme that parsing and printing use. -/
theorem authority_bytes (c : UInt8) :
    ((url.isAlnum c || c == 46 || c == 45 || c == 58) = true →
      c ≠ 35 ∧ c ≠ 63 ∧ c ≠ 47 ∧ c ≠ 64 ∧ c ≠ 37 ∧ c ≠ 91
      ∧ (decide (c.toNat < 32) || c == 127) = false
      ∧ c.toNat < 128
      ∧ url.shouldEscape c .encodeHost = false)
    ∧ ((url.isAlnum c || c == 46 || c == 45) = true → c ≠ 58)
    ∧ (url.between 'a' 'z' c = true →
      c ≠ 35 ∧ c ≠ 58 ∧ c ≠ 42 ∧ (decide (c.toNat < 32) || c == 127) = false
      ∧ strings.lowerASCII c = c ∧ (url.between 'a' 'z' c || url.between 'A' 'Z' c) = true) := by
  revert c
  apply all_bytes
  decide

/-- Unescaping a host leaves a text of host bytes as it is. -/
theorem unescape_host_plain (s : GoString)
    (h : ∀ c ∈ s, (url.isAlnum c || c == 46 || c == 45 || c == 58) = true) :
    url.unescape s .encodeHost = .ok s := by
  induction s with
  | nil => simp [url.unescape]
  | cons c s ih =>
    have hc := (authority_bytes c).1 (h c (by simp))
    have hs := ih (fun x hx => h x (by simp [hx]))
    obtain ⟨_, _, _, _, h37, _, _, _, hesc⟩ := hc
    rcases s with _ | ⟨a, _ | ⟨b, r⟩⟩ <;> simp [url.unescape, h37, hesc] at hs ⊢ <;> simp [hs]

/-- Escaping a host leaves a text of host bytes as it is. -/
theorem escape_host_plain (s : GoString)
    (h : ∀ c ∈ s, (url.isAlnum c || c == 46 || c == 45 || c == 58) = true) :
    url.escape s .encodeHost = s := by
  induction s with
  | nil => simp [url.escape]
  | cons c s ih =>
    have hc := (authority_bytes c).1 (h c (by simp))
    have hs := ih (fun x hx => h x (by simp [hx]))
    obtain ⟨_, _, _, _, _, _, _, _, hesc⟩ := hc
    simp only [url.escape, List.flatMap_cons] at hs ⊢
    rw [hs]
    simp [hesc]
theorem getSchemeLoop_letters (pre letters rest : GoString)
    (hl : ∀ c ∈ letters, url.between 'a' 'z' c = true) (hpos : 0 < pre.length + letters.length) :
    url.getSchemeLoop (pre ++ letters ++ 58 :: rest) pre.length (letters ++ 58 :: rest)
      = .ok (pre ++ letters, rest) := by
  induction letters generalizing pre with
  | nil =>
    have hp : pre.length ≠ 0 := by simpa using Nat.pos_iff_ne_zero.1 hpos
    have h1 : (url.between 'a' 'z' 58 || url.between 'A' 'Z' 58) = false := by decide
    have h2 : (url.between '0' '9' 58 || url.oneOf 58 "+-.") = false := by decide
    have hd : (pre ++ 58 :: rest).drop (pre.length + 1) = rest := by
      rw [← List.drop_drop]; simp
    simp only [List.append_nil, List.nil_append, url.getSchemeLoop, h1, h2, hp, if_false,
      Bool.false_eq_true, if_true, List.take_left, hd]
  | cons c s ih =>
    have hc := ((authority_bytes c).2.2 (hl c (by simp))).2.2.2.2.2
    have h := ih (pre ++ [c]) (fun x hx => hl x (by simp [hx])) (by simp)
    simp only [List.append_assoc, List.singleton_append, List.length_append,
      List.length_singleton] at h
    simp only [List.cons_append, url.getSchemeLoop, hc, if_true]
    simpa using h

theorem getScheme_lower (scheme rest : GoString) (hs : isLowerScheme scheme = true) :
    url.getScheme (scheme ++ 58 :: rest) = .ok (scheme, rest) := by
  simp only [isLowerScheme, Bool.and_eq_true, Bool.not_eq_true', List.isEmpty_eq_false,
    List.all_eq_true] at hs
  have hpos : 0 < ([] : GoString).length + scheme.length := by
    simpa using List.length_pos.2 hs.1
  simpa [url.getScheme] using getSchemeLoop_letters [] scheme rest hs.2 hpos

theorem map_lower_scheme (scheme : GoString) (hs : isLowerScheme scheme = true) :
    scheme.map strings.lowerASCII = scheme := by
  simp only [isLowerScheme, Bool.and_eq_true, List.all_eq_true] at hs
  conv => rhs; rw [← List.map_id scheme]
  apply List.map_congr_left
  intro c hc
  exact ((authority_bytes c).2.2 (hs.2 c hc)).2.2.2.2.1

/-- The bytes of a host name followed by an optional port. -/
theorem host_port_bytes (host port : GoString) (hh : isHostName host = true)
    (hp : isOptionalPort port = true) :
    ∀ c ∈ host ++ port, (url.isAlnum c || c == 46 || c == 45 || c == 58) = true := by
  simp only [isHostName, Bool.and_eq_true, List.all_eq_true] at hh
  intro c hc
  rcases List.mem_append.1 hc with h | h
  · have := hh.2 c h
    simp only [Bool.or_eq_true] at this ⊢
    exact Or.inl this
  · cases port with
    | nil => cases h
    | cons d digits =>
      simp only [isOptionalPort, Bool.and_eq_true, List.all_eq_true] at hp
      rcases List.mem_cons.1 h with h | h
      · subst h; simp only [Bool.or_eq_true]; exact Or.inr hp.1
      · have := hp.2 c h
        simp only [url.isAlnum, Bool.or_eq_true]
        exact Or.inl (Or.inl (Or.inl (Or.inr this)))

theorem parseHost_plain (host port : GoString) (hh : isHostName host = true)
    (hp : isOptionalPort port = true) :
    url.parseHost (host ++ port) = .ok (host ++ port) := by
  have hb := host_port_bytes host port hh hp
  have hun := unescape_host_plain _ hb
  have hname := hh
  simp only [isHostName, Bool.and_eq_true, Bool.not_eq_true', List.isEmpty_eq_false,
    List.all_eq_true] at hname
  have h58 : (58 : UInt8) ∉ host := fun h => (authority_bytes 58).2.1 (hname.2 _ h) rfl
  have hs1 : str "[" = [91] := by decide
  have hs2 : str ":" = [58] := by decide
  have hpre : strings.HasPrefix (host ++ port) (str "[") = false := by
    obtain ⟨c, s, rfl⟩ := List.exists_cons_of_ne_nil hname.1
    have := ((authority_bytes c).1 (hb c (by simp))).2.2.2.2.2.1
    rw [strings.HasPrefix, hs1, List.cons_append, isPrefixOf_single]
    exact beq_eq_false_iff_ne.2 (Ne.symm this)
  rw [url.parseHost, hpre, hs2]
  simp only [Bool.false_eq_true, if_false]
  cases port with
  | nil =>
    rw [List.append_nil] at hun ⊢
    rw [LastIndex_single_none 58 host h58]
    exact hun
  | cons d digits =>
    simp only [isOptionalPort, Bool.and_eq_true, beq_iff_eq, List.all_eq_true] at hp
    obtain ⟨hd, hdig⟩ := hp
    subst hd
    have hnd : (58 : UInt8) ∉ digits := by
      intro h
      have := hdig _ h
      revert this; decide
    rw [LastIndex_single_append 58 host digits hnd]
    have hv : url.validOptionalPort (58 :: digits) = true := by
      simp only [url.validOptionalPort, Bool.and_eq_true, beq_self_eq_true, List.all_eq_true,
        true_and]
      exact hdig
    simp only [List.drop_left, hv, Bool.not_true, Bool.false_eq_true, if_false]
    exact hun

theorem parseAuthority_plain (host port : GoString) (hh : isHostName host = true)
    (hp : isOptionalPort port = true) :
    url.parseAuthority (host ++ port) = .ok (none, host ++ port) := by
  have hb := host_port_bytes host port hh hp
  have h64 : (64 : UInt8) ∉ host ++ port :=
    fun h => ((authority_bytes 64).1 (hb _ h)).2.2.2.1 rfl
  have hs : str "@" = [64] := by decide
  rw [url.parseAuthority, hs, LastIndex_single_none 64 _ h64]
  simp only [parseHost_plain host port hh hp]

/-- The text `scheme://host[:port]` holds none of the bytes that end the
authority or start a query or a fragment, and no control byte. -/
theorem endpoint_bytes (scheme host port : GoString) (hs : isLowerScheme scheme = true)
    (hh : isHostName host = true) (hp : isOptionalPort port = true) :
    (35 : UInt8) ∉ scheme ++ 58 :: (47 :: 47 :: (host ++ port))
    ∧ url.stringContainsCTLByte (scheme ++ 58 :: (47 :: 47 :: (host ++ port))) = false
    ∧ (63 : UInt8) ∉ (47 : UInt8) :: 47 :: (host ++ port)
    ∧ (47 : UInt8) ∉ host ++ port := by
  have hb := host_port_bytes host port hh hp
  have hsch := hs
  simp only [isLowerScheme, Bool.and_eq_true, List.all_eq_true] at hsch
  refine ⟨?_, ?_, ?_, ?_⟩
  · intro h
    simp only [List.mem_append, List.mem_cons] at h
    rcases h with h | h | h | h | h | h
    · exact ((authority_bytes 35).2.2 (hsch.2 _ h)).1 rfl
    · exact absurd h (by decide)
    · exact absurd h (by decide)
    · exact absurd h (by decide)
    · exact ((authority_bytes 35).1 (hb _ (List.mem_append_left _ h))).1 rfl
    · exact ((authority_bytes 35).1 (hb _ (List.mem_append_right _ h))).1 rfl
  · rw [url.stringContainsCTLByte]
    apply Bool.eq_false_iff.2
    intro h
    rw [List.any_eq_true] at h
    obtain ⟨c, hc, hctl⟩ := h
    simp only [List.mem_append, List.mem_cons] at hc
    rcases hc with h | h | h | h | h | h
    · rw [((authority_bytes c).2.2 (hsch.2 _ h)).2.2.2.1] at hctl; cases hctl
    · subst h; revert hctl; decide
    · subst h; revert hctl; decide
    · subst h; revert hctl; decide
    · rw [((authority_bytes c).1 (hb _ (List.mem_append_left _ h))).2.2.2.2.2.2.1] at hctl
      cases hctl
    · rw [((authority_bytes c).1 (hb _ (List.mem_append_right _ h))).2.2.2.2.2.2.1] at hctl
      cases hctl
  · intro h
    simp only [List.mem_cons] at h
    rcases h with h | h | h
    · exact absurd h (by decide)
    · exact absurd h (by decide)
    · exact ((authority_bytes 63).1 (hb _ h)).2.1 rfl
  · intro h
    exact ((authority_bytes 47).1 (hb _ h)).2.2.1 rfl

/-- Parsing `scheme://host[:port]`: the scheme and the host, nothing else. -/
theorem parse_plain (scheme host port : GoString) (hs : isLowerScheme scheme = true)
    (hh : isHostName host = true) (hp : isOptionalPort port = true) :
    url.parse (scheme ++ 58 :: (47 :: 47 :: (host ++ port))) false
      = .ok { Scheme := scheme, Host := host ++ port } := by
  obtain ⟨_, hctl, h63, h47⟩ := endpoint_bytes scheme host port hs hh hp
  have hsch := hs
  simp only [isLowerScheme, Bool.and_eq_true, Bool.not_eq_true', List.isEmpty_eq_false,
    List.all_eq_true] at hsch
  have hne : scheme ++ 58 :: (47 :: 47 :: (host ++ port)) ≠ [] := by simp
  have hstar : scheme ++ 58 :: (47 :: 47 :: (host ++ port)) ≠ str "*" := by
    obtain ⟨c, s, rfl⟩ := List.exists_cons_of_ne_nil hsch.1
    have hc := ((authority_bytes c).2.2 (hsch.2 c (by simp))).2.2.1
    have hstar : str "*" = [42] := by decide
    rw [hstar]
    intro h
    simp only [List.cons_append, List.cons.injEq] at h
    exact hc h.1
  have hq : str "?" = [63] := by decide
  have hsl : str "/" = [47] := by decide
  have hsl2 : str "//" = [47, 47] := by decide
  have hcount : ¬ (strings.HasSuffix ((47 : UInt8) :: 47 :: (host ++ port)) [63] = true
      ∧ strings.Count ((47 : UInt8) :: 47 :: (host ++ port)) [63] = 1) := by
    rw [Count_single_zero 63 _ h63]
    intro h; exact absurd h.2 (by decide)
  have hpre1 : strings.HasPrefix ((47 : UInt8) :: 47 :: (host ++ port)) [47] = true := by
    simp [strings.HasPrefix, List.isPrefixOf]
  have hpre2 : strings.HasPrefix ((47 : UInt8) :: 47 :: (host ++ port)) [47, 47] = true := by
    simp [strings.HasPrefix, List.isPrefixOf]
  rw [url.parse]
  simp only [hctl, Bool.false_eq_true, if_false, hne, false_and, hstar, getScheme_lower _ _ hs,
    map_lower_scheme scheme hs, hq, hsl, hcount, Cut_single_of_not_mem 63 _ h63, hpre1,
    Bool.not_true]
  rw [url.parseAuthorityPath]
  simp only [hsl2, hpre2, and_true, ne_eq, hsch.1, not_false_eq_true, true_or, if_true,
    List.drop_succ_cons, List.drop_zero, hsl, Index_single_none 47 _ h47,
    parseAuthority_plain host port hh hp]
  simp [url.URL.setPath, url.unescape, url.escape]

/-- `url.Parse` accepts `scheme://host[:port]`. -/
theorem Parse_plain (scheme host port : GoString) (hs : isLowerScheme scheme = true)
    (hh : isHostName host = true) (hp : isOptionalPort port = true) :
    url.Parse (scheme ++ str "://" ++ host ++ port)
      = .ok { Scheme := scheme, Host := host ++ port } := by
  obtain ⟨h35, _, _, _⟩ := endpoint_bytes scheme host port hs hh hp
  have he : scheme ++ str "://" ++ host ++ port
      = scheme ++ 58 :: (47 :: 47 :: (host ++ port)) := by
    have : str "://" = [58, 47, 47] := by decide
    rw [this]; simp
  have hh35 : str "#" = [35] := by decide
  rw [he, url.Parse]
  simp only [hh35, Cut_single_of_not_mem 35 _ h35, parse_plain scheme host port hs hh hp]
  simp

/-- Printing a URL that has a scheme, a plain host and the path
`/api/v1/messages`. -/
theorem String_plain (scheme host port : GoString) (hs : isLowerScheme scheme = true)
    (hh : isHostName host = true) (hp : isOptionalPort port = true) :
    url.URL.String { Scheme := scheme, Host := host ++ port, Path := str "/api/v1/messages" }
      = scheme ++ str "://" ++ host ++ port ++ str "/api/v1/messages" := by
  have hb := host_port_bytes host port hh hp
  have hsch := hs
  simp only [isLowerScheme, Bool.and_eq_true, Bool.not_eq_true', List.isEmpty_eq_false,
    List.all_eq_true] at hsch
  have hname := hh
  simp only [isHostName, Bool.and_eq_true, Bool.not_eq_true', List.isEmpty_eq_false,
    List.all_eq_true] at hname
  have hhost : host ++ port ≠ [] := by simp [hname.1]
  have hpath : url.URL.EscapedPath
      { Scheme := scheme, Host := host ++ port, Path := str "/api/v1/messages" }
      = str "/api/v1/messages" := by
    simp only [url.URL.EscapedPath, ne_eq, not_true_eq_false, false_and, if_false]
    decide
  have hp1 : str "/api/v1/messages" ≠ [] := by decide
  have hp2 : (str "/api/v1/messages").head? = some 47 := by decide
  have hc : str "://" = str ":" ++ str "//" := by decide
  simp only [url.URL.String, hpath, ne_eq, hsch.1, not_false_eq_true, if_true, not_true_eq_false,
    if_false, hhost, true_or, Bool.false_eq_true, false_and, escape_host_plain _ hb, hp1, hp2,
    and_false, true_and, or_self, Option.isSome_none, or_false, List.append_eq_nil, and_self, hc]
  simp
/-- Printing a URL that has a host or user information and no path, query
or fragment, once with the path `/api/v1/messages` and once as it is: the
first is the second followed by the path. -/
theorem String_with_path (u : url.URL) (hopq : u.Opaque = []) (hpath : u.Path = [])
    (hraw : u.RawPath = []) (hforce : u.ForceQuery = false) (hquery : u.RawQuery = [])
    (hfrag : u.Fragment = []) (hauth : u.Host ≠ [] ∨ u.User.isSome = true) :
    url.URL.String { u with Path := str "/api/v1/messages" }
      = u.String ++ str "/api/v1/messages" := by
  obtain ⟨scheme, opq, user, host, path, raw, omitHost, force, query, frag, rawfrag⟩ := u
  simp only at hopq hpath hraw hforce hquery hfrag hauth
  subst hopq hpath hraw hforce hquery hfrag
  have e1 : url.escape (str "/api/v1/messages") .encodePath = str "/api/v1/messages" := by
    decide
  have e2 : str "/api/v1/messages" ≠ str "*" := by decide
  have e3 : str "/api/v1/messages" ≠ [] := by decide
  have e4 : (str "/api/v1/messages").head? = some 47 := by decide
  have e5 : ([] : GoString) ≠ str "*" := by decide
  have e6 : str "//" ≠ [] := by decide
  have hp1 : url.URL.EscapedPath
      ⟨scheme, [], user, host, str "/api/v1/messages", [], omitHost, false, [], [], rawfrag⟩
      = str "/api/v1/messages" := by
    simp [url.URL.EscapedPath, e1, e2]
  have hp2 : url.URL.EscapedPath ⟨scheme, [], user, host, [], [], omitHost, false, [], [], rawfrag⟩
      = [] := by
    simp [url.URL.EscapedPath, e5, url.escape]
  simp only [url.URL.String, hp1, hp2]
  by_cases hh : host = []
  · subst hh
    cases user with
    | none => simp at hauth
    | some ui => simp [e3, e4, e6]
  · cases user with
    | none => simp [hh, e3, e4, e6]
    | some ui => simp [hh, e3, e4, e6]

/-- The endpoint a provider stores is the parsed endpoint printed with the
path `/api/v1/messages`. -/
theorem NewZulip_endpoint_eq {TLS : Type} (endpoint c proxyURL : GoString)
    (tlsConfig : Option TLS) (username password : GoString) (z : Zulip TLS)
    (hz : NewZulip endpoint c proxyURL tlsConfig username password = (some z, none)) :
    ∃ u, url.Parse endpoint = .ok u
      ∧ z.endpoint = url.URL.String { u with Path := str "/api/v1/messages" }
      ∧ (u.Opaque = [] → u.Path = [] → u.RawPath = [] → u.ForceQuery = false →
          u.RawQuery = [] → u.Fragment = [] → (u.Host ≠ [] ∨ u.User.isSome = true) →
          z.endpoint = u.String ++ str "/api/v1/messages") := by
  cases hp : url.Parse endpoint with
  | error e =>
    simp only [NewZulip, hp] at hz
    cases hz
  | ok u =>
    have he : z.endpoint = url.URL.String { u with Path := str "/api/v1/messages" } := by
      rw [NewZulip_of_parse endpoint c proxyURL tlsConfig username password u hp] at hz
      split at hz
      · cases hz
      · cases hz; rfl
    refine ⟨u, rfl, he, ?_⟩
    intro h1 h2 h3 h4 h5 h6 h7
    rw [he, String_with_path u h1 h2 h3 h4 h5 h6 h7]

/-- C5, amended. For an endpoint `scheme://host[:port]` (a lower-case
scheme, a host name of ASCII letters, digits, dots and hyphens, an optional
decimal port, and no path, query or fragment) and a channel string with
non-empty channel and topic, `NewZulip` succeeds, and the URL which the
provider stores and to which `Zulip.Post` delivers is the endpoint followed
by `/api/v1/messages`. For every endpoint that `NewZulip` accepts, the
stored URL is the parsed endpoint printed with its path replaced by
`/api/v1/messages`; when the parsed endpoint has a host or user information
and no path, query or fragment, this is the printed endpoint followed by
`/api/v1/messages`. -/
theorem NewZulip_endpoint {TLS : Type} (scheme host port ch topic proxyURL : GoString)
    (tlsConfig : Option TLS) (username password : GoString)
    (hs : isLowerScheme scheme = true) (hh : isHostName host = true)
    (hp : isOptionalPort port = true)
    (hch : ch ≠ []) (hslash : (47 : UInt8) ∉ ch) (htopic : topic ≠ []) :
    (∃ z : Zulip TLS,
      NewZulip (scheme ++ str "://" ++ host ++ port) (ch ++ str "/" ++ topic) proxyURL tlsConfig
          username password = (some z, none)
      ∧ z.endpoint = scheme ++ str "://" ++ host ++ port ++ str "/api/v1/messages"
      ∧ ∀ (Ctx Opt Err World : Type) (d : Dispatch Ctx TLS Opt Err World)
          (mapLower : GoString → GoString) (ctx : Ctx) (event : Event) (w : World),
          Zulip.Post d mapLower z ctx event w
            = d.postMessage ctx (scheme ++ str "://" ++ host ++ port ++ str "/api/v1/messages")
                (z.payload (Zulip.content mapLower event))
                [d.withProxy z.proxyURL,
                 d.withTLSConfig z.tlsConfig,
                 d.withBasicAuth z.username z.password,
                 d.withContentType (str "application/x-www-form-urlencoded")] w)
    ∧ ∀ (endpoint c : GoString) (z : Zulip TLS),
        NewZulip endpoint c proxyURL tlsConfig username password = (some z, none) →
        ∃ u, url.Parse endpoint = .ok u
          ∧ z.endpoint = url.URL.String { u with Path := str "/api/v1/messages" }
          ∧ (u.Opaque = [] → u.Path = [] → u.RawPath = [] → u.ForceQuery = false →
              u.RawQuery = [] → u.Fragment = [] → (u.Host ≠ [] ∨ u.User.isSome = true) →
              z.endpoint = u.String ++ str "/api/v1/messages") := by
  refine ⟨?_, fun endpoint c z hz => NewZulip_endpoint_eq endpoint c _ _ _ _ z hz⟩
  have hparse := Parse_plain scheme host port hs hh hp
  have hmem : (47 : UInt8) ∈ ch ++ str "/" ++ topic := by
    have hs : str "/" = [47] := by decide
    simp [hs]
  rw [NewZulip_of_parse _ _ proxyURL tlsConfig username password _ hparse,
    beforeSlash_append ch topic hslash, afterSlash_append ch topic hslash,
    if_neg (fun h => h.elim (fun h => h hmem) (fun h => h.elim hch htopic))]
  refine ⟨_, rfl, String_plain scheme host port hs hh hp, ?_⟩
  intro Ctx Opt Err World d mapLower ctx event w
  exact congrArg (fun e => d.postMessage ctx e _ _ w) (String_plain scheme host port hs hh hp)

/-- The amended claim C5 at the endpoint `https://zulip.example.com:8443`
and the channel string `alerts/flux`. -/
theorem NewZulip_endpoint_witness :
    (∃ z : Zulip Unit,
      NewZulip (str "https" ++ str "://" ++ str "zulip.example.com" ++ str ":8443")
          (str "alerts" ++ str "/" ++ str "flux") [] none [] [] = (some z, none)
      ∧ z.endpoint = str "https" ++ str "://" ++ str "zulip.example.com" ++ str ":8443"
          ++ str "/api/v1/messages"
      ∧ ∀ (Ctx Opt Err World : Type) (d : Dispatch Ctx Unit Opt Err World)
          (mapLower : GoString → GoString) (ctx : Ctx) (event : Event) (w : World),
          Zulip.Post d mapLower z ctx event w
            = d.postMessage ctx (str "https" ++ str "://" ++ str "zulip.example.com"
                  ++ str ":8443" ++ str "/api/v1/messages")
                (z.payload (Zulip.content mapLower event))
                [d.withProxy z.proxyURL,
                 d.withTLSConfig z.tlsConfig,
                 d.withBasicAuth z.username z.password,
                 d.withContentType (str "application/x-www-form-urlencoded")] w)
    ∧ ∀ (endpoint c : GoString) (z : Zulip Unit),
        NewZulip endpoint c [] none [] [] = (some z, none) →
        ∃ u, url.Parse endpoint = .ok u
          ∧ z.endpoint = url.URL.String { u with Path := str "/api/v1/messages" }
          ∧ (u.Opaque = [] → u.Path = [] → u.RawPath = [] → u.ForceQuery = false →
              u.RawQuery = [] → u.Fragment = [] → (u.Host ≠ [] ∨ u.User.isSome = true) →
              z.endpoint = u.String ++ str "/api/v1/messages") :=
  NewZulip_endpoint (str "https") (str "zulip.example.com") (str ":8443") (str "alerts")
    (str "flux") [] none [] [] (by decide) (by decide) (by decide) (by decide) (by decide)
    (by decide)

/-- C5 as stated fails: for the endpoint `https://chat.example.com/zulip`
the provider stores `https://chat.example.com/api/v1/messages`, which is not
the endpoint followed by `/api/v1/messages`; the path `/zulip` is dropped. -/
theorem NewZulip_endpoint_not_appended :
    (@NewZulip Unit (str "https://chat.example.com/zulip") (str "alerts/flux") [] none [] []).1.map
        (fun z => z.endpoint) = some (str "https://chat.example.com/api/v1/messages")
    ∧ (@NewZulip Unit (str "https://chat.example.com/zulip") (str "alerts/flux") [] none [] []).1.map
        (fun z => z.endpoint)
      ≠ some (str "https://chat.example.com/zulip" ++ str "/api/v1/messages")
    ∧ (@NewZulip Unit (str "https://chat.example.com/zulip") (str "alerts/flux") [] none [] []).2.isNone
      = true := by
  decide

/-! ## The construction of the commit-status dispatch provider -/

/-- C7. For a valid repository URL and an empty static token, the
construction follows the order of the checks: without application ID in the
secret data (no secret data, or installation ID and private key alone) it
fails with "github token or github app details must be specified"; with the
application ID and without installation ID it fails with "app installation
ID must be provided to use github app authentication"; with both and
without private key it fails with "private key must be provided to use
github app authentication"; with all three it returns a provider and no
error. -/
theorem NewGitHubDispatch_validation_order {TLS Cache : Type} (addr : GoString)
    (tlsConfig : Option TLS) (proxyURL providerName providerNamespace : GoString)
    (secretData : GoMap (List UInt8)) (tokenCache : Option Cache)
    (haddr : (parseRepositoryURL addr).isSome = true) :
    (present secretData "githubAppID" = false →
      NewGitHubDispatch addr [] tlsConfig proxyURL providerName providerNamespace secretData
          tokenCache
        = (none, some (.New (str "github token or github app details must be specified"))))
    ∧ (present secretData "githubAppID" = true →
        present secretData "githubAppInstallationID" = false →
      NewGitHubDispatch addr [] tlsConfig proxyURL providerName providerNamespace secretData
          tokenCache
        = (none, some (.New
            (str "app installation ID must be provided to use github app authentication"))))
    ∧ (present secretData "githubAppID" = true →
        present secretData "githubAppInstallationID" = true →
        present secretData "githubAppPrivateKey" = false →
      NewGitHubDispatch addr [] tlsConfig proxyURL providerName providerNamespace secretData
          tokenCache
        = (none, some (.New
            (str "private key must be provided to use github app authentication"))))
    ∧ (present secretData "githubAppID" = true →
        present secretData "githubAppInstallationID" = true →
        present secretData "githubAppPrivateKey" = true →
      (NewGitHubDispatch addr [] tlsConfig proxyURL providerName providerNamespace secretData
          tokenCache).1.isSome = true
      ∧ (NewGitHubDispatch addr [] tlsConfig proxyURL providerName providerNamespace secretData
          tokenCache).2 = none) := by
  refine ⟨?_, ?_, ?_, ?_⟩
  · intro h1
    simp [NewGitHubDispatch, h1]
  · intro h1 h2
    simp [NewGitHubDispatch, h1, h2]
  · intro h1 h2 h3
    simp [NewGitHubDispatch, h1, h2, h3]
  · intro h1 h2 h3
    obtain ⟨r, hr⟩ := Option.isSome_iff_exists.1 haddr
    obtain ⟨host, owner, repo⟩ := r
    simp [NewGitHubDispatch, h1, h2, h3, hr]

/-- The claim C7 at the URL `https://github.com/foo/bar` and the secret data
with application ID and private key but no installation ID. -/
theorem NewGitHubDispatch_validation_order_witness :
    (present secretWithoutInstallationID "githubAppID" = false →
      @NewGitHubDispatch Unit Unit (str "https://github.com/foo/bar") [] none [] (str "foo")
          (str "bar")
          secretWithoutInstallationID
          none
        = (none, some (.New (str "github token or github app details must be specified"))))
    ∧ (present secretWithoutInstallationID "githubAppID" = true →
        present secretWithoutInstallationID "githubAppInstallationID" = false →
      @NewGitHubDispatch Unit Unit (str "https://github.com/foo/bar") [] none [] (str "foo")
          (str "bar")
          secretWithoutInstallationID
          none
        = (none, some (.New
            (str "app installation ID must be provided to use github app authentication"))))
    ∧ (present secretWithoutInstallationID "githubAppID" = true →
        present secretWithoutInstallationID "githubAppInstallationID" = true →
        present secretWithoutInstallationID "githubAppPrivateKey" = false →
      @NewGitHubDispatch Unit Unit (str "https://github.com/foo/bar") [] none [] (str "foo")
          (str "bar")
          secretWithoutInstallationID
          none
        = (none, some (.New
            (str "private key must be provided to use github app authentication"))))
    ∧ (present secretWithoutInstallationID "githubAppID" = true →
        present secretWithoutInstallationID "githubAppInstallationID" = true →
        present secretWithoutInstallationID "githubAppPrivateKey" = true →
      (@NewGitHubDispatch Unit Unit (str "https://github.com/foo/bar") [] none [] (str "foo")
          (str "bar")
          secretWithoutInstallationID
          none).1.isSome = true
      ∧ (@NewGitHubDispatch Unit Unit (str "https://github.com/foo/bar") [] none [] (str "foo")
          (str "bar")
          secretWithoutInstallationID
          none).2 = none) :=
  NewGitHubDispatch_validation_order (str "https://github.com/foo/bar") none [] (str "foo")
    (str "bar") secretWithoutInstallationID none (by decide)

end Notifier
